import Mathlib

/-!
Pico multicore raytracer: a shallow embedding of `src/main.c`.

The C program computes with `double`.  The embedding idealises `double` as an
arbitrary linearly ordered field `F` (no rounding, no infinities, no NaN) and
takes the library function `sqrt` of `math.h` as an explicit parameter; the
theorems that need it assume the contract `IsSqrt` (a non-negative square
root on non-negative arguments), which `Real.sqrt` meets on `ℝ`.  Division by
zero is avoided by the hypotheses of the theorems; where the C code would
produce a NaN the comparison `> 0` is false, as it is for the value `0` that
the field division gives.

Global variables of the program (`spheres`, `screenBuffer`) are passed
explicitly.  The uninitialised local `output` of `getSceneIntersection` is a
parameter as well: on a miss every field but `isHit` keeps whatever it held.

Statements whose truth depends on rounding (an exact value, an exact unit
length) are checked a second time in the namespace `Binary64`, which embeds
the same functions with the rounding of IEEE 754 binary64.
-/

namespace PicoRaytracer

/-- The struct `Vec3D` (main.c:11-13). -/
structure Vec3D (F : Type) where
  i : F
  j : F
  k : F

/-- The struct `Colour` (main.c:15-17). -/
structure Colour (F : Type) where
  red : F
  green : F
  blue : F

/-- The enum `Material` (main.c:19-22). -/
inductive Material where
  | DIFFUSE
  | MIRROR
  deriving DecidableEq, Repr

/-- The struct `Sphere` (main.c:24-29). -/
structure Sphere (F : Type) where
  position : Vec3D F
  radius : F
  material : Material
  colour : Colour F

/-- The struct `Intersection` (main.c:31-37). -/
structure Intersection (F : Type) where
  isHit : Bool
  position : Vec3D F
  normal : Vec3D F
  material : Material
  colour : Colour F

section Defs

variable {F : Type} [LinearOrderedField F]

/-- The macro `ACCURACY` (main.c:42), the decimal 0.0001. -/
def ACCURACY : F := 1 / 10000

/-- The global `spheres` (main.c:46-49). -/
def spheres : List (Sphere F) :=
  [ ⟨⟨0, 0, 240⟩, 50, Material.DIFFUSE, ⟨1, 0, 0⟩⟩,
    ⟨⟨0, -10050, 240⟩, 10000, Material.DIFFUSE, ⟨0, 1, 0⟩⟩ ]

/-- The global `numOfSpheres` (main.c:51). -/
def numOfSpheres : ℕ := 2

/-- The global `lightPos` (main.c:53). -/
def lightPos : Vec3D F := ⟨100, 100, 200⟩

/-- The global `focalLength` (main.c:55). -/
def focalLength : F := 240

/-- Contract assumed of the library function `sqrt`: on a non-negative
argument it returns the non-negative square root. -/
def IsSqrt (sqrt : F → F) : Prop :=
  ∀ x : F, 0 ≤ x → 0 ≤ sqrt x ∧ sqrt x * sqrt x = x

/-- `getMagnitude` (main.c:60-62). -/
def getMagnitude (sqrt : F → F) (v : Vec3D F) : F :=
  sqrt (v.i * v.i + v.j * v.j + v.k * v.k)

/-- `normalised` (main.c:64-71).  The copy `out` is taken before the three
divisions, the divisions update the parameter `v`, and `out` is returned. -/
def normalised (sqrt : F → F) (v : Vec3D F) : Vec3D F :=
  let out := v
  let mag := getMagnitude sqrt v
  let v : Vec3D F := { v with i := v.i / mag }
  let v : Vec3D F := { v with j := v.j / mag }
  let _v : Vec3D F := { v with k := v.k / mag }
  out

/-- `add` (main.c:73-76). -/
def add (a b : Vec3D F) : Vec3D F :=
  ⟨a.i + b.i, a.j + b.j, a.k + b.k⟩

/-- `scale` (main.c:78-81). -/
def scale (v : Vec3D F) (scale : F) : Vec3D F :=
  ⟨v.i * scale, v.j * scale, v.k * scale⟩

/-- `dot` (main.c:83-85). -/
def dot (a b : Vec3D F) : F :=
  a.i * b.i + a.j * b.j + a.k * b.k

/-- `findVec` (main.c:87-90): the vector from `a` to `b`. -/
def findVec (a b : Vec3D F) : Vec3D F :=
  ⟨b.i - a.i, b.j - a.j, b.k - a.k⟩

/-- `findUnitVec` (main.c:92-99): here the divisions update `out` itself. -/
def findUnitVec (sqrt : F → F) (a b : Vec3D F) : Vec3D F :=
  let out : Vec3D F := ⟨b.i - a.i, b.j - a.j, b.k - a.k⟩
  let mag := getMagnitude sqrt out
  let out : Vec3D F := { out with i := out.i / mag }
  let out : Vec3D F := { out with j := out.j / mag }
  let out : Vec3D F := { out with k := out.k / mag }
  out

/-- `getSphereIntersectionT` (main.c:103-135). -/
def getSphereIntersectionT (sqrt : F → F) (origin direction : Vec3D F)
    (sphere : Sphere F) : F :=
  let a := dot direction direction
  let co := findVec sphere.position origin
  let b := 2 * dot direction co
  let c := dot co co - sphere.radius * sphere.radius
  let discriminant := b * b - 4 * a * c
  if discriminant < 0 then
    -1
  else if discriminant = 0 then
    (-b + sqrt discriminant) / (2 * a)
  else
    let t1 := (-b + sqrt discriminant) / (2 * a)
    let t2 := (-b - sqrt discriminant) / (2 * a)
    if t1 ≤ 0 ∧ t2 ≤ 0 then
      -1
    else if 0 < t1 ∧ 0 < t2 then
      (if t1 < t2 then t1 else t2)
    else if 0 < t1 then
      t1
    else
      t2

/-- The sentinel that `closestT` starts from (main.c:143). -/
def closestTInit : F := 999999

/-- The body of the loop of `getSceneIntersection` (main.c:147-151), on the
pair `(closestT, closestSphere)`; the null pointer is `none`. -/
def closestStep (sqrt : F → F) (origin direction : Vec3D F)
    (st : F × Option (Sphere F)) (sphere : Sphere F) : F × Option (Sphere F) :=
  let currentT := getSphereIntersectionT sqrt origin direction sphere
  if 0 < currentT ∧ currentT < st.1 then (currentT, some sphere) else st

/-- The loop of `getSceneIntersection` (main.c:143-152) over the scene, from
`closestT = 999999.0` and `closestSphere = NULL`.  The loop bound
`numOfSpheres` is the number of elements of `spheres`, so the loop visits
every sphere of the scene, in order. -/
def closestLoop (sqrt : F → F) (scene : List (Sphere F)) (origin direction : Vec3D F) :
    F × Option (Sphere F) :=
  scene.foldl (closestStep sqrt origin direction) (closestTInit, none)

/-- `getSceneIntersection` (main.c:139-163).  `scene` is the global `spheres`
and `output` the initial content of the uninitialised local. -/
def getSceneIntersection (sqrt : F → F) (scene : List (Sphere F)) (output : Intersection F)
    (origin direction : Vec3D F) : Intersection F :=
  let output : Intersection F := { output with isHit := false }
  let st := closestLoop sqrt scene origin direction
  let closestT := st.1
  match st.2 with
  | some closestSphere =>
    let output : Intersection F := { output with isHit := true }
    let output : Intersection F :=
      { output with position := add origin (scale direction closestT) }
    let output : Intersection F :=
      { output with normal := findUnitVec sqrt closestSphere.position output.position }
    let output : Intersection F := { output with material := closestSphere.material }
    let output : Intersection F := { output with colour := closestSphere.colour }
    output
  | none => output

/-- `scaleColour` (main.c:167-170). -/
def scaleColour (colour : Colour F) (scale : F) : Colour F :=
  ⟨colour.red * scale, colour.green * scale, colour.blue * scale⟩

/-- The primary ray of `getPixelColour` (main.c:216-217). -/
def primaryRay (sqrt : F → F) (focalLength x y : F) : Vec3D F :=
  let screenPos : Vec3D F := ⟨x, y, focalLength⟩
  normalised sqrt screenPos

/-- `getPixelColour` (main.c:215-244).  `out1` and `out2` are the initial
contents of the locals that receive the two scene queries. -/
def getPixelColour (sqrt : F → F) (scene : List (Sphere F)) (out1 out2 : Intersection F)
    (focalLength x y : F) : Colour F :=
  let ray := primaryRay sqrt focalLength x y
  let origin : Vec3D F := ⟨0, 0, 0⟩
  let firstIntersection := getSceneIntersection sqrt scene out1 origin ray
  if firstIntersection.isHit then
    let shadowRay := findUnitVec sqrt firstIntersection.position lightPos
    let nextIntersection :=
      getSceneIntersection sqrt scene out2
        (add firstIntersection.position (scale firstIntersection.normal ACCURACY)) shadowRay
    let portionOfLight := (dot firstIntersection.normal shadowRay + 1) / 2
    let col := scaleColour firstIntersection.colour portionOfLight
    if nextIntersection.isHit then
      scaleColour col (8 / 10)
    else
      col
  else
    let skyColour : Colour F := ⟨0, 0, 0⟩
    skyColour

/-- The local `firstIntersection` of `getPixelColour` (main.c:216-221). -/
def firstIntersection (sqrt : F → F) (scene : List (Sphere F)) (out1 : Intersection F)
    (focalLength x y : F) : Intersection F :=
  getSceneIntersection sqrt scene out1 ⟨0, 0, 0⟩ (primaryRay sqrt focalLength x y)

/-- The local `shadowRay` of `getPixelColour` (main.c:224). -/
def shadowRay (sqrt : F → F) (scene : List (Sphere F)) (out1 : Intersection F)
    (focalLength x y : F) : Vec3D F :=
  findUnitVec sqrt (firstIntersection sqrt scene out1 focalLength x y).position lightPos

/-- The local `nextIntersection` of `getPixelColour` (main.c:226). -/
def nextIntersection (sqrt : F → F) (scene : List (Sphere F)) (out1 out2 : Intersection F)
    (focalLength x y : F) : Intersection F :=
  getSceneIntersection sqrt scene out2
    (add (firstIntersection sqrt scene out1 focalLength x y).position
      (scale (firstIntersection sqrt scene out1 focalLength x y).normal ACCURACY))
    (shadowRay sqrt scene out1 focalLength x y)

/-- The local `portionOfLight` of `getPixelColour` (main.c:228). -/
def portionOfLight (sqrt : F → F) (scene : List (Sphere F)) (out1 : Intersection F)
    (focalLength x y : F) : F :=
  (dot (firstIntersection sqrt scene out1 focalLength x y).normal
      (shadowRay sqrt scene out1 focalLength x y) + 1) / 2

variable [FloorRing F]

/-- The conversion `(uint8_t) x` of a `double`: the fractional part is
discarded (truncation toward zero) and the integer is reduced to its low
eight bits.  For an integral part outside `0..255` the C standard leaves the
result open; the reduction modulo `2^8` is what the narrowing of the
converted machine integer gives. -/
def toUInt8 (x : F) : ℕ :=
  ((if 0 ≤ x then ⌊x⌋ else ⌈x⌉) % 256).toNat

/-- The channel `blue` of `convertColour` after its clamp (main.c:193-196). -/
def blueChannel (colour : Colour F) : ℕ :=
  let blue := toUInt8 (colour.blue * 31)
  if blue > 31 then 31 else blue

/-- The channel `red` of `convertColour` after its clamp (main.c:198-201). -/
def redChannel (colour : Colour F) : ℕ :=
  let red := toUInt8 (colour.red * 31)
  if red > 31 then 31 else red

/-- The channel `green` of `convertColour` after its clamp (main.c:203-206). -/
def greenChannel (colour : Colour F) : ℕ :=
  let green := toUInt8 (colour.green * 63)
  if green > 63 then 63 else green

/-- The packing expression of `convertColour` (main.c:208), stored in a
`uint16_t`. -/
def packWord (blue red green : ℕ) : ℕ :=
  ((blue <<< 8) ||| (red <<< 3) ||| (green >>> 3) ||| ((green &&& 0x07) <<< 13)) % 65536

/-- `convertColour` (main.c:192-211). -/
def convertColour (colour : Colour F) : ℕ :=
  let blue := blueChannel colour
  let red := redChannel colour
  let green := greenChannel colour
  let col := packWord blue red green
  col

/-- `drawPoint` (main.c:183-188) on the global `screenBuffer` (main.c:44),
held as the map from a cell index to the sixteen-bit word stored there.  The
index `y*240+x` is computed on `int`. -/
def drawPoint (screenBuffer : ℕ → ℕ) (x y : ℤ) (colour : ℕ) : ℕ → ℕ :=
  if x < 0 ∨ y < 0 ∨ x ≥ 240 ∨ y ≥ 240 then
    screenBuffer
  else
    fun cell => if cell = (y * 240 + x).toNat then colour else screenBuffer cell

/-- The pairs `(i, j)` that the loop nest `for j` from `jStart` up to but not
including `jEnd`, `for i` from `0` up to but not including `240`, visits, in
order (main.c:265-266 and main.c:291-292). -/
def loopPixels (jStart jEnd : ℕ) : List (ℤ × ℤ) :=
  (List.range' jStart (jEnd - jStart)).flatMap fun (j : ℕ) =>
    (List.range 240).map fun (i : ℕ) => ((i : ℤ), (j : ℤ))

/-- The body of the two render loops (main.c:267-270 and main.c:293-296) for
the pixel `p = (i, j)`: the one call of `drawPoint` of the iteration. -/
def renderPixel (sqrt : F → F) (scene : List (Sphere F)) (out1 out2 : Intersection F)
    (screenBuffer : ℕ → ℕ) (p : ℤ × ℤ) : ℕ → ℕ :=
  let i := p.1
  let j := p.2
  let x : F := ((i - 120 : ℤ) : F)
  let y : F := ((120 - j : ℤ) : F)
  drawPoint screenBuffer i j
    (convertColour (getPixelColour sqrt scene out1 out2 focalLength x y))

/-- `core1Code` (main.c:264-275), on the pair of the globals `screenBuffer`
and `core1Finished`. -/
def core1Code (sqrt : F → F) (scene : List (Sphere F)) (out1 out2 : Intersection F)
    (screenBuffer : ℕ → ℕ) : (ℕ → ℕ) × Bool :=
  let screenBuffer :=
    (loopPixels 120 240).foldl (renderPixel sqrt scene out1 out2) screenBuffer
  (screenBuffer, true)

/-- The pre-fill loop of `main` (main.c:283-285). -/
def mainPrefill (screenBuffer : ℕ → ℕ) : ℕ → ℕ :=
  (List.range 57600).foldl (fun buf i => fun cell => if cell = i then 0xffff else buf cell)
    screenBuffer

/-- The render loop of `main` (main.c:291-299).  The calls of
`LCD_1IN3_Display` only read the buffer and are left out. -/
def mainRenderLoop (sqrt : F → F) (scene : List (Sphere F)) (out1 out2 : Intersection F)
    (screenBuffer : ℕ → ℕ) : ℕ → ℕ :=
  (loopPixels 0 120).foldl (renderPixel sqrt scene out1 out2) screenBuffer

end Defs

/-!
A second model, with rounding.  The definitions above compute in an exact
ordered field.  The namespace `Binary64` embeds the same functions of
`src/main.c` once more with the arithmetic of IEEE 754 binary64, the format of
`double`: a finite number is the rational it denotes, every operation rounds
its exact result to the nearest number with a significand of 53 binary
digits (a tie going to the even significand), and an operation returns `none`
when its result is not zero or a normal finite number (an infinity, a NaN or a
subnormal), after which the whole computation is `none`.  The operations are
taken one by one in the order in which the C expressions evaluate them,
without fused multiply-add.
-/

namespace Binary64

/-- The number of halvings that take `n` below `2`, which is the position of
the leading binary digit of `n`; `fuel` bounds the halvings. -/
def log2Fuel : ℕ → ℕ → ℕ
  | 0, _ => 0
  | fuel + 1, n => if n < 2 then 0 else log2Fuel fuel (n / 2) + 1

/-- The position of the leading binary digit of `n`. -/
def log2 (n : ℕ) : ℕ := log2Fuel n n

/-- The power `2^k` for an integer `k`. -/
def pow2 (k : ℤ) : ℚ :=
  if 0 ≤ k then (2 : ℚ) ^ k.toNat else 1 / (2 : ℚ) ^ (-k).toNat

/-- The binary exponent of a positive rational `q`: the integer `e` with
`2^e ≤ q < 2^(e+1)`. -/
def exponent (q : ℚ) : ℤ :=
  let e0 : ℤ := (log2 q.num.natAbs : ℤ) - (log2 q.den : ℤ)
  if q < pow2 e0 then e0 - 1 else e0

/-- The value with sign of `q`, significand `m` and binary exponent `e`, as a
binary64 number: `none` when it is below the normal range or not finite. -/
def pack (q : ℚ) (m : ℤ) (e : ℤ) : Option ℚ :=
  let v := (m : ℚ) * pow2 (e - 52)
  if e < -1022 ∨ pow2 1024 ≤ v then none else some (if q < 0 then -v else v)

/-- Rounding of the exact result `q` of an operation to binary64: to the
nearest number with a significand of 53 binary digits, a tie going to the
even significand.  `none` stands for every result that is not zero or a
normal finite number (an infinity, a NaN, a subnormal). -/
def round (q : ℚ) : Option ℚ :=
  if q = 0 then some 0 else
    let e := exponent |q|
    let s := |q| * pow2 (52 - e)
    let f := ⌊s⌋
    let r := s - f
    let m : ℤ :=
      if r < 1 / 2 then f else if 1 / 2 < r then f + 1 else if f % 2 = 0 then f else f + 1
    pack q m e

/-- The loop of the digit-by-digit integer square root, from binary digit
`i` down to digit `0`. -/
def isqrtLoop (n : ℕ) : ℕ → ℕ → ℕ
  | 0, r => if (r + 1) * (r + 1) ≤ n then r + 1 else r
  | i + 1, r =>
    isqrtLoop n i (if (r + 2 ^ (i + 1)) * (r + 2 ^ (i + 1)) ≤ n then r + 2 ^ (i + 1) else r)

/-- The integer square root: the largest `r` with `r*r ≤ n`. -/
def isqrt (n : ℕ) : ℕ := isqrtLoop n (log2 n / 2 + 1) 0

/-- The binary64 sum `a + b`. -/
def fadd (a b : ℚ) : Option ℚ := round (a + b)

/-- The binary64 difference `a - b`. -/
def fsub (a b : ℚ) : Option ℚ := round (a - b)

/-- The binary64 product `a * b`. -/
def fmul (a b : ℚ) : Option ℚ := round (a * b)

/-- The binary64 quotient `a / b`; a division by zero gives an infinity or a
NaN, so `none`. -/
def fdiv (a b : ℚ) : Option ℚ := if b = 0 then none else round (a / b)

/-- The binary64 square root `sqrt(a)`, correctly rounded: with `e` the
binary exponent of the root and `s = a * 4^(52-e)`, the significand is
`isqrt ⌊s⌋` or its successor, according to the side of `(f + 1/2)^2` on which
`s` lies.  The root of a negative number is a NaN, so `none`. -/
def fsqrt (a : ℚ) : Option ℚ :=
  if a < 0 then none else if a = 0 then some 0 else
    let e := exponent a / 2
    let s := a * pow2 (2 * (52 - e))
    let f : ℤ := isqrt ⌊s⌋.toNat
    let h : ℚ := ((f : ℚ) + 1 / 2) * ((f : ℚ) + 1 / 2)
    let m : ℤ := if s < h then f else if h < s then f + 1 else if f % 2 = 0 then f else f + 1
    if m = 2 ^ 53 then pack 1 (2 ^ 52) (e + 1) else pack 1 m e

/-- `getMagnitude` (main.c:60-62) in binary64. -/
def getMagnitude (v : Vec3D ℚ) : Option ℚ := do
  let ii ← fmul v.i v.i
  let jj ← fmul v.j v.j
  let kk ← fmul v.k v.k
  fsqrt (← fadd (← fadd ii jj) kk)

/-- `normalised` (main.c:64-71) in binary64: the three quotients are stored
in the parameter and `out`, the copy taken before, is returned. -/
def normalised (v : Vec3D ℚ) : Vec3D ℚ :=
  let out := v
  out

/-- `add` (main.c:73-76) in binary64. -/
def add (a b : Vec3D ℚ) : Option (Vec3D ℚ) := do
  let i ← fadd a.i b.i
  let j ← fadd a.j b.j
  let k ← fadd a.k b.k
  some ⟨i, j, k⟩

/-- `scale` (main.c:78-81) in binary64. -/
def scale (v : Vec3D ℚ) (scale : ℚ) : Option (Vec3D ℚ) := do
  let i ← fmul v.i scale
  let j ← fmul v.j scale
  let k ← fmul v.k scale
  some ⟨i, j, k⟩

/-- `dot` (main.c:83-85) in binary64. -/
def dot (a b : Vec3D ℚ) : Option ℚ := do
  let ii ← fmul a.i b.i
  let jj ← fmul a.j b.j
  let kk ← fmul a.k b.k
  fadd (← fadd ii jj) kk

/-- `findVec` (main.c:87-90) in binary64. -/
def findVec (a b : Vec3D ℚ) : Option (Vec3D ℚ) := do
  let i ← fsub b.i a.i
  let j ← fsub b.j a.j
  let k ← fsub b.k a.k
  some ⟨i, j, k⟩

/-- `findUnitVec` (main.c:92-99) in binary64. -/
def findUnitVec (a b : Vec3D ℚ) : Option (Vec3D ℚ) := do
  let out ← findVec a b
  let mag ← getMagnitude out
  let i ← fdiv out.i mag
  let j ← fdiv out.j mag
  let k ← fdiv out.k mag
  some ⟨i, j, k⟩

/-- The choice among the two roots in `getSphereIntersectionT`
(main.c:122-134). -/
def chooseRoot (t1 t2 : ℚ) : ℚ :=
  if t1 ≤ 0 ∧ t2 ≤ 0 then
    -1
  else if 0 < t1 ∧ 0 < t2 then
    (if t1 < t2 then t1 else t2)
  else if 0 < t1 then
    t1
  else
    t2

/-- The coefficients `a` and `b` and the discriminant that
`getSphereIntersectionT` computes (main.c:104-109), in binary64. -/
def quadratic (origin direction : Vec3D ℚ) (sphere : Sphere ℚ) : Option (ℚ × ℚ × ℚ) := do
  let a ← dot direction direction
  let co ← findVec sphere.position origin
  let dco ← dot direction co
  let b ← fmul 2 dco
  let coco ← dot co co
  let rr ← fmul sphere.radius sphere.radius
  let c ← fsub coco rr
  let bb ← fmul b b
  let fourA ← fmul 4 a
  let fourAC ← fmul fourA c
  let discriminant ← fsub bb fourAC
  some (a, b, discriminant)

/-- The branches of `getSphereIntersectionT` (main.c:111-134) in binary64,
from the coefficients and the discriminant. -/
def solve (a b discriminant : ℚ) : Option ℚ := do
  if discriminant < 0 then
    some (-1)
  else
    let root ← fsqrt discriminant
    let twoA ← fmul 2 a
    let plus ← fadd (-b) root
    let t1 ← fdiv plus twoA
    let minus ← fsub (-b) root
    let t2 ← fdiv minus twoA
    some (if discriminant = 0 then t1 else chooseRoot t1 t2)

/-- `getSphereIntersectionT` (main.c:103-135) in binary64. -/
def getSphereIntersectionT (origin direction : Vec3D ℚ) (sphere : Sphere ℚ) : Option ℚ := do
  let q ← quadratic origin direction sphere
  solve q.1 q.2.1 q.2.2

/-- The body of the loop of `getSceneIntersection` (main.c:147-151) in
binary64. -/
def closestStep (origin direction : Vec3D ℚ) (st : ℚ × Option (Sphere ℚ))
    (sphere : Sphere ℚ) : Option (ℚ × Option (Sphere ℚ)) := do
  let currentT ← getSphereIntersectionT origin direction sphere
  if 0 < currentT ∧ currentT < st.1 then some (currentT, some sphere) else some st

/-- The loop of `getSceneIntersection` (main.c:143-152) in binary64. -/
def closestLoop (scene : List (Sphere ℚ)) (origin direction : Vec3D ℚ) :
    Option (ℚ × Option (Sphere ℚ)) :=
  scene.foldlM (closestStep origin direction) (999999, none)

/-- `getSceneIntersection` (main.c:139-163) in binary64. -/
def getSceneIntersection (scene : List (Sphere ℚ)) (output : Intersection ℚ)
    (origin direction : Vec3D ℚ) : Option (Intersection ℚ) := do
  let output : Intersection ℚ := { output with isHit := false }
  let st ← closestLoop scene origin direction
  let closestT := st.1
  match st.2 with
  | some closestSphere =>
    let position ← add origin (← scale direction closestT)
    let normal ← findUnitVec closestSphere.position position
    some ⟨true, position, normal, closestSphere.material, closestSphere.colour⟩
  | none => some output

/-- The local `firstIntersection` of `getPixelColour` (main.c:216-221) in
binary64. -/
def firstIntersection (scene : List (Sphere ℚ)) (out1 : Intersection ℚ)
    (focalLength x y : ℚ) : Option (Intersection ℚ) :=
  getSceneIntersection scene out1 ⟨0, 0, 0⟩ (normalised ⟨x, y, focalLength⟩)

/-- The local `shadowRay` of `getPixelColour` (main.c:224) in binary64. -/
def shadowRay (scene : List (Sphere ℚ)) (out1 : Intersection ℚ)
    (focalLength x y : ℚ) : Option (Vec3D ℚ) := do
  let first ← firstIntersection scene out1 focalLength x y
  findUnitVec first.position lightPos

/-- The local `portionOfLight` of `getPixelColour` (main.c:228) in
binary64. -/
def portionOfLight (scene : List (Sphere ℚ)) (out1 : Intersection ℚ)
    (focalLength x y : ℚ) : Option ℚ := do
  let first ← firstIntersection scene out1 focalLength x y
  let shadowRay ← shadowRay scene out1 focalLength x y
  fdiv (← fadd (← dot first.normal shadowRay) 1) 2

end Binary64

section Lemmas

variable {F : Type} [LinearOrderedField F]

/-- The library square root on the reals meets the contract `IsSqrt`. -/
theorem isSqrt_real : IsSqrt Real.sqrt := fun x hx =>
  ⟨Real.sqrt_nonneg x, Real.mul_self_sqrt hx⟩

/-- A square root that meets the contract is determined by its square. -/
theorem IsSqrt.eq_of_mul_self {sqrt : F → F} (h : IsSqrt sqrt) {x y : F}
    (hy : 0 ≤ y) (hxy : y * y = x) : sqrt x = y := by
  have hx : 0 ≤ x := by rw [← hxy]; exact mul_self_nonneg y
  obtain ⟨h0, h1⟩ := h x hx
  have h2 : sqrt x * sqrt x = y * y := by rw [h1, hxy]
  exact (mul_self_inj h0 hy).mp h2

/-- A dot product of a vector with itself is a sum of squares. -/
theorem dot_self_nonneg (v : Vec3D F) : 0 ≤ dot v v := by
  unfold dot
  nlinarith [mul_self_nonneg v.i, mul_self_nonneg v.j, mul_self_nonneg v.k]

/-- A non-zero vector has a positive squared length. -/
theorem dot_self_pos {v : Vec3D F} (hv : v ≠ ⟨0, 0, 0⟩) : 0 < dot v v := by
  rcases v with ⟨x, y, z⟩
  have hne : x ≠ 0 ∨ y ≠ 0 ∨ z ≠ 0 := by
    by_contra hcon
    push_neg at hcon
    obtain ⟨rfl, rfl, rfl⟩ := hcon
    exact hv rfl
  simp only [dot]
  rcases hne with h | h | h
  · have := mul_self_pos.mpr h
    nlinarith [mul_self_nonneg y, mul_self_nonneg z]
  · have := mul_self_pos.mpr h
    nlinarith [mul_self_nonneg x, mul_self_nonneg z]
  · have := mul_self_pos.mpr h
    nlinarith [mul_self_nonneg x, mul_self_nonneg y]

/-- The point of the ray at parameter `t` is on the sphere surface exactly
when `t` solves the quadratic that `getSphereIntersectionT` sets up. -/
theorem surface_iff_quadratic (origin direction : Vec3D F) (sphere : Sphere F) (t : F) :
    dot (findVec sphere.position (add origin (scale direction t)))
        (findVec sphere.position (add origin (scale direction t)))
      = sphere.radius * sphere.radius ↔
    dot direction direction * t * t
      + 2 * dot direction (findVec sphere.position origin) * t
      + (dot (findVec sphere.position origin) (findVec sphere.position origin)
          - sphere.radius * sphere.radius) = 0 := by
  simp only [dot, findVec, add, scale]
  constructor <;> intro h <;> linear_combination h

/-- The roots of a quadratic with positive leading coefficient, given a
square root `s` of its discriminant. -/
theorem quadratic_root_iff {a b c s t : F} (ha : 0 < a) (hs : s * s = b * b - 4 * a * c) :
    a * t * t + b * t + c = 0 ↔ t = (-b + s) / (2 * a) ∨ t = (-b - s) / (2 * a) := by
  have h2a : (2 * a) ≠ 0 := by positivity
  constructor
  · intro h
    have hprod : (2 * a * t + b - s) * (2 * a * t + b + s) = 0 := by
      linear_combination 4 * a * h - hs
    rcases mul_eq_zero.mp hprod with h1 | h1
    · left
      rw [eq_div_iff h2a]
      linear_combination h1
    · right
      rw [eq_div_iff h2a]
      linear_combination h1
  · intro h
    have hq : 4 * a * (a * t * t + b * t + c) = 0 := by
      rcases h with h | h
      · rw [eq_div_iff h2a] at h
        have h1 : 2 * a * t + b = s := by linear_combination h
        linear_combination (2 * a * t + b + s) * h1 + hs
      · rw [eq_div_iff h2a] at h
        have h1 : 2 * a * t + b = -s := by linear_combination h
        linear_combination (2 * a * t + b - s) * h1 + hs
    have h4a : (4 * a) ≠ 0 := by positivity
    exact (mul_eq_zero.mp hq).resolve_left h4a

/-- The branches of `getSphereIntersectionT` in terms of the two roots
`t2 ≤ t1` of its quadratic, for a ray with positive `a`. -/
theorem getSphereIntersectionT_cases {sqrt : F → F} (hsqrt : IsSqrt sqrt)
    (origin direction : Vec3D F) (sphere : Sphere F) (ha : 0 < dot direction direction) :
    let a := dot direction direction
    let b := 2 * dot direction (findVec sphere.position origin)
    let c := dot (findVec sphere.position origin) (findVec sphere.position origin)
      - sphere.radius * sphere.radius
    let T := getSphereIntersectionT sqrt origin direction sphere
    (b * b - 4 * a * c < 0 ∧ T = -1) ∨
    (∃ s : F, 0 ≤ s ∧ s * s = b * b - 4 * a * c ∧
      (-b - s) / (2 * a) ≤ (-b + s) / (2 * a) ∧
      (((-b + s) / (2 * a) ≤ 0 ∧ T ≤ 0) ∨
       (0 < (-b - s) / (2 * a) ∧ T = (-b - s) / (2 * a)) ∨
       ((-b - s) / (2 * a) ≤ 0 ∧ 0 < (-b + s) / (2 * a) ∧ T = (-b + s) / (2 * a)))) := by
  intro a b c T
  have h2a : 0 < 2 * a := by positivity
  by_cases hD : b * b - 4 * a * c < 0
  · left
    refine ⟨hD, ?_⟩
    simp only [T, getSphereIntersectionT]
    rw [if_pos hD]
  · right
    have hD0 : 0 ≤ b * b - 4 * a * c := not_lt.mp hD
    obtain ⟨hs0, hss⟩ := hsqrt _ hD0
    refine ⟨sqrt (b * b - 4 * a * c), hs0, hss, ?_, ?_⟩
    · apply div_le_div_of_nonneg_right _ h2a.le
      linarith
    · have hle : (-b - sqrt (b * b - 4 * a * c)) / (2 * a)
          ≤ (-b + sqrt (b * b - 4 * a * c)) / (2 * a) := by
        apply div_le_div_of_nonneg_right _ h2a.le
        linarith
      have hT : T = getSphereIntersectionT sqrt origin direction sphere := rfl
      simp only [getSphereIntersectionT] at hT
      rw [if_neg hD] at hT
      by_cases hDz : b * b - 4 * a * c = 0
      · rw [if_pos hDz] at hT
        have hsz : sqrt (b * b - 4 * a * c) = 0 := by
          have := hss
          rw [hDz] at this ⊢
          exact mul_self_eq_zero.mp this
        rw [hsz] at hT ⊢
        rw [hsz] at hle
        rcases le_or_lt ((-b + 0) / (2 * a)) 0 with h | h
        · left
          exact ⟨h, hT ▸ h⟩
        · right; left
          have heq : (-b - 0) / (2 * a) = (-b + 0) / (2 * a) := by ring
          rw [heq]
          exact ⟨h, hT⟩
      · rw [if_neg hDz] at hT
        by_cases h1 : (-b + sqrt (b * b - 4 * a * c)) / (2 * a) ≤ 0
        · left
          refine ⟨h1, ?_⟩
          rw [if_pos ⟨h1, le_trans hle h1⟩] at hT
          rw [hT]; norm_num
        · have h1p : 0 < (-b + sqrt (b * b - 4 * a * c)) / (2 * a) := not_le.mp h1
          rw [if_neg (fun hh => h1 hh.1)] at hT
          by_cases h2 : 0 < (-b - sqrt (b * b - 4 * a * c)) / (2 * a)
          · right; left
            rw [if_pos ⟨h1p, h2⟩] at hT
            refine ⟨h2, ?_⟩
            rcases hle.lt_or_eq with hlt | heq
            · rw [if_neg (not_lt.mpr hlt.le)] at hT
              exact hT
            · rw [if_neg (by rw [heq]; exact lt_irrefl _)] at hT
              exact hT
          · right; right
            rw [if_neg (fun hh => h2 hh.2), if_pos h1p] at hT
            exact ⟨not_lt.mp h2, h1p, hT⟩

/-- The loop of `getSceneIntersection` from an arbitrary state: either no
sphere improves on the state, which is returned as it is, or the final state
holds a sphere of the scene whose positive result is below the initial
`closestT` and is the least positive result of the scene. -/
theorem foldl_closestStep_spec (sqrt : F → F) (origin direction : Vec3D F)
    (scene : List (Sphere F)) (st : F × Option (Sphere F)) :
    (scene.foldl (closestStep sqrt origin direction) st = st ∧
      ∀ s ∈ scene, ¬ (0 < getSphereIntersectionT sqrt origin direction s ∧
        getSphereIntersectionT sqrt origin direction s < st.1)) ∨
    (∃ s ∈ scene,
      scene.foldl (closestStep sqrt origin direction) st
        = (getSphereIntersectionT sqrt origin direction s, some s) ∧
      0 < getSphereIntersectionT sqrt origin direction s ∧
      getSphereIntersectionT sqrt origin direction s < st.1 ∧
      ∀ s' ∈ scene, 0 < getSphereIntersectionT sqrt origin direction s' →
        getSphereIntersectionT sqrt origin direction s
          ≤ getSphereIntersectionT sqrt origin direction s') := by
  induction scene generalizing st with
  | nil => left; simp
  | cons x rest ih =>
    rw [List.foldl_cons]
    by_cases hx : 0 < getSphereIntersectionT sqrt origin direction x ∧
        getSphereIntersectionT sqrt origin direction x < st.1
    · have hstep : closestStep sqrt origin direction st x
          = (getSphereIntersectionT sqrt origin direction x, some x) := by
        simp only [closestStep]; rw [if_pos hx]
      rw [hstep]
      right
      rcases ih (getSphereIntersectionT sqrt origin direction x, some x) with
        ⟨heq, hnone⟩ | ⟨s, hs, heq, hpos, hlt, hmin⟩
      · refine ⟨x, List.mem_cons_self _ _, heq, hx.1, hx.2, ?_⟩
        intro s' hs' hpos'
        rcases List.mem_cons.mp hs' with rfl | hmem
        · exact le_refl _
        · exact not_lt.mp (fun hlt => hnone s' hmem ⟨hpos', hlt⟩)
      · refine ⟨s, List.mem_cons_of_mem _ hs, heq, hpos, lt_trans hlt hx.2, ?_⟩
        intro s' hs' hpos'
        rcases List.mem_cons.mp hs' with rfl | hmem
        · exact le_of_lt hlt
        · exact hmin s' hmem hpos'
    · have hstep : closestStep sqrt origin direction st x = st := by
        simp only [closestStep]; rw [if_neg hx]
      rw [hstep]
      rcases ih st with ⟨heq, hnone⟩ | ⟨s, hs, heq, hpos, hlt, hmin⟩
      · left
        refine ⟨heq, ?_⟩
        intro s' hs'
        rcases List.mem_cons.mp hs' with rfl | hmem
        · exact hx
        · exact hnone s' hmem
      · right
        refine ⟨s, List.mem_cons_of_mem _ hs, heq, hpos, hlt, ?_⟩
        intro s' hs' hpos'
        rcases List.mem_cons.mp hs' with rfl | hmem
        · exact le_of_lt (lt_of_lt_of_le hlt (not_lt.mp (fun h => hx ⟨hpos', h⟩)))
        · exact hmin s' hmem hpos'

/-- The hit flag of `getSceneIntersection` says whether the loop left a
sphere in `closestSphere`. -/
theorem isHit_eq_isSome (sqrt : F → F) (scene : List (Sphere F)) (output : Intersection F)
    (origin direction : Vec3D F) :
    (getSceneIntersection sqrt scene output origin direction).isHit
      = (closestLoop sqrt scene origin direction).2.isSome := by
  simp only [getSceneIntersection]
  cases (closestLoop sqrt scene origin direction).2 <;> rfl

/-- A hit is reported exactly when some sphere has a positive result below
the sentinel `999999`. -/
theorem isHit_iff_below_sentinel (sqrt : F → F) (scene : List (Sphere F))
    (output : Intersection F) (origin direction : Vec3D F) :
    (getSceneIntersection sqrt scene output origin direction).isHit = true ↔
      ∃ s ∈ scene, 0 < getSphereIntersectionT sqrt origin direction s ∧
        getSphereIntersectionT sqrt origin direction s < 999999 := by
  rw [isHit_eq_isSome]
  unfold closestLoop
  rcases foldl_closestStep_spec sqrt origin direction scene (closestTInit, none) with
    ⟨heq, hnone⟩ | ⟨s, hs, heq, hpos, hlt, _⟩
  · rw [heq]
    simp only [Option.isSome_none, Bool.false_eq_true, false_iff, not_exists, not_and]
    intro s hs hpos hlt
    exact hnone s hs ⟨hpos, hlt⟩
  · rw [heq]
    simp only [Option.isSome_some, true_iff]
    exact ⟨s, hs, hpos, hlt⟩

/-- The ray from `(0,0,-1000000)` along `(0,0,1)` meets the first sphere of
the compiled-in scene at parameter `1000190`. -/
theorem far_ray_first_sphere {sqrt : F → F} (hsqrt : IsSqrt sqrt) :
    getSphereIntersectionT sqrt ⟨0, 0, -1000000⟩ ⟨0, 0, 1⟩
      ⟨⟨0, 0, 240⟩, 50, Material.DIFFUSE, ⟨1, 0, 0⟩⟩ = 1000190 := by
  have hs : sqrt 10000 = 100 := hsqrt.eq_of_mul_self (by norm_num) (by norm_num)
  simp only [getSphereIntersectionT, dot, findVec]
  norm_num [hs]

/-- The same ray misses the second sphere of the compiled-in scene. -/
theorem far_ray_second_sphere (sqrt : F → F) :
    getSphereIntersectionT sqrt ⟨0, 0, -1000000⟩ ⟨0, 0, 1⟩
      ⟨⟨0, -10050, 240⟩, 10000, Material.DIFFUSE, ⟨0, 1, 0⟩⟩ = -1 := by
  simp only [getSphereIntersectionT, dot, findVec]
  norm_num

/-- The ray from the origin along `(0,0,1)` meets the first sphere of the
compiled-in scene at parameter `190`. -/
theorem axis_ray_first_sphere {sqrt : F → F} (hsqrt : IsSqrt sqrt) :
    getSphereIntersectionT sqrt ⟨0, 0, 0⟩ ⟨0, 0, 1⟩
      ⟨⟨0, 0, 240⟩, 50, Material.DIFFUSE, ⟨1, 0, 0⟩⟩ = 190 := by
  have hs : sqrt 10000 = 100 := hsqrt.eq_of_mul_self (by norm_num) (by norm_num)
  simp only [getSphereIntersectionT, dot, findVec]
  norm_num [hs]

/-- The same ray misses the second sphere of the compiled-in scene. -/
theorem axis_ray_second_sphere (sqrt : F → F) :
    getSphereIntersectionT sqrt ⟨0, 0, 0⟩ ⟨0, 0, 1⟩
      ⟨⟨0, -10050, 240⟩, 10000, Material.DIFFUSE, ⟨0, 1, 0⟩⟩ = -1 := by
  simp only [getSphereIntersectionT, dot, findVec]
  norm_num

/-- The state in which the loop of `getSceneIntersection` ends for the ray
from the origin along `(0,0,1)` in the compiled-in scene. -/
theorem axis_ray_closestLoop {sqrt : F → F} (hsqrt : IsSqrt sqrt) :
    closestLoop sqrt spheres ⟨0, 0, 0⟩ ⟨0, 0, 1⟩
      = (190, some ⟨⟨0, 0, 240⟩, 50, Material.DIFFUSE, ⟨1, 0, 0⟩⟩) := by
  simp only [closestLoop, spheres, List.foldl_cons, List.foldl_nil, closestStep,
    axis_ray_first_sphere hsqrt, axis_ray_second_sphere, closestTInit]
  norm_num

/-- The record that `getSceneIntersection` builds when the loop ends with a
sphere selected. -/
theorem getSceneIntersection_of_some (sqrt : F → F) (scene : List (Sphere F))
    (output : Intersection F) (origin direction : Vec3D F) (t : F) (s : Sphere F)
    (h : closestLoop sqrt scene origin direction = (t, some s)) :
    getSceneIntersection sqrt scene output origin direction
      = ⟨true, add origin (scale direction t),
          findUnitVec sqrt s.position (add origin (scale direction t)),
          s.material, s.colour⟩ := by
  simp only [getSceneIntersection, h]

/-- When a hit is reported, the loop ended with a sphere of the scene whose
result is positive and least among the positive results. -/
theorem closestLoop_of_isHit (sqrt : F → F) (scene : List (Sphere F))
    (output : Intersection F) (origin direction : Vec3D F)
    (hhit : (getSceneIntersection sqrt scene output origin direction).isHit = true) :
    ∃ s ∈ scene,
      closestLoop sqrt scene origin direction
        = (getSphereIntersectionT sqrt origin direction s, some s) ∧
      0 < getSphereIntersectionT sqrt origin direction s ∧
      ∀ s' ∈ scene, 0 < getSphereIntersectionT sqrt origin direction s' →
        getSphereIntersectionT sqrt origin direction s
          ≤ getSphereIntersectionT sqrt origin direction s' := by
  rw [isHit_eq_isSome] at hhit
  unfold closestLoop at hhit ⊢
  rcases foldl_closestStep_spec sqrt origin direction scene (closestTInit, none) with
    ⟨heq, _⟩ | ⟨s, hs, heq, hpos, _, hmin⟩
  · rw [heq] at hhit
    simp at hhit
  · exact ⟨s, hs, heq, hpos, hmin⟩

/-- A positive result of `getSphereIntersectionT` is a parameter of a point
of the sphere surface. -/
theorem pos_result_on_surface {sqrt : F → F} (hsqrt : IsSqrt sqrt)
    (origin direction : Vec3D F) (sphere : Sphere F) (ha : 0 < dot direction direction)
    (hpos : 0 < getSphereIntersectionT sqrt origin direction sphere) :
    dot (findVec sphere.position
          (add origin (scale direction (getSphereIntersectionT sqrt origin direction sphere))))
        (findVec sphere.position
          (add origin (scale direction (getSphereIntersectionT sqrt origin direction sphere))))
      = sphere.radius * sphere.radius := by
  have hcases := getSphereIntersectionT_cases hsqrt origin direction sphere ha
  dsimp only at hcases
  rcases hcases with ⟨_, hT⟩ | ⟨s, _, hss, _, h⟩
  · rw [hT] at hpos
    norm_num at hpos
  · rw [surface_iff_quadratic, quadratic_root_iff ha hss]
    rcases h with ⟨_, hT⟩ | ⟨_, hT⟩ | ⟨_, _, hT⟩
    · exact absurd hpos (not_lt.mpr hT)
    · exact Or.inr hT
    · exact Or.inl hT

/-- The result of `findUnitVec` for two distinct points has magnitude `1`,
and its dot product with the difference of the points is the positive square
root of the squared distance. -/
theorem findUnitVec_spec {sqrt : F → F} (hsqrt : IsSqrt sqrt) (a b : Vec3D F)
    (hab : 0 < dot (findVec a b) (findVec a b)) :
    getMagnitude sqrt (findUnitVec sqrt a b) = 1 ∧
    0 < dot (findUnitVec sqrt a b) (findVec a b) ∧
    dot (findUnitVec sqrt a b) (findVec a b) * dot (findUnitVec sqrt a b) (findVec a b)
      = dot (findVec a b) (findVec a b) := by
  obtain ⟨hm0, hmm⟩ := hsqrt _ hab.le
  have hD : dot (findVec a b) (findVec a b)
      = (b.i - a.i) * (b.i - a.i) + (b.j - a.j) * (b.j - a.j) + (b.k - a.k) * (b.k - a.k) := rfl
  rw [hD] at hab hmm hm0
  have hmpos : 0 < sqrt ((b.i - a.i) * (b.i - a.i) + (b.j - a.j) * (b.j - a.j)
      + (b.k - a.k) * (b.k - a.k)) := by
    rcases hm0.lt_or_eq with h | h
    · exact h
    · rw [← h] at hmm; rw [← hmm] at hab; simp at hab
  have hmne := hmpos.ne'
  have hdot : dot (findUnitVec sqrt a b) (findVec a b)
      = sqrt ((b.i - a.i) * (b.i - a.i) + (b.j - a.j) * (b.j - a.j)
          + (b.k - a.k) * (b.k - a.k)) := by
    simp only [dot, findUnitVec, findVec, getMagnitude]
    rw [eq_comm, ← sub_eq_zero]
    field_simp
    linear_combination hmm
  refine ⟨?_, ?_, ?_⟩
  · simp only [getMagnitude, findUnitVec]
    apply hsqrt.eq_of_mul_self (by norm_num)
    rw [eq_comm, ← sub_eq_zero]
    field_simp
    linear_combination -hmm
  · rw [hdot]; exact hmpos
  · rw [hdot, hD]; exact hmm

/-- The packing expression of `convertColour` on channel values within
their maxima: the four fields do not overlap, so the bitwise "or" is a sum
and the result fits sixteen bits. -/
theorem packWord_eq_sum {blue red green : ℕ} (hb : blue ≤ 31) (hr : red ≤ 31)
    (hg : green ≤ 63) :
    packWord blue red green
      = blue * 2 ^ 8 + red * 2 ^ 3 + green / 8 + (green % 8) * 2 ^ 13 := by
  have h7 : (0x07 : ℕ) = 2 ^ 3 - 1 := by norm_num
  have e1 : blue <<< 8 ||| red <<< 3 = 2 ^ 3 * (32 * blue + red) := by
    have h := Nat.mul_add_lt_is_or (show red * 2 ^ 3 < 2 ^ 8 by omega) blue
    rw [Nat.shiftLeft_eq, Nat.shiftLeft_eq, Nat.mul_comm blue (2 ^ 8), ← h]
    ring
  have e2 : 2 ^ 3 * (32 * blue + red) ||| green >>> 3
      = 2 ^ 3 * (32 * blue + red) + green / 8 := by
    have h := Nat.mul_add_lt_is_or (show green / 8 < 2 ^ 3 by omega) (32 * blue + red)
    rw [Nat.shiftRight_eq_div_pow, h]
  have e3 : (2 ^ 3 * (32 * blue + red) + green / 8) ||| (green &&& 0x07) <<< 13
      = 2 ^ 13 * (green % 8) + (2 ^ 3 * (32 * blue + red) + green / 8) := by
    have h := Nat.mul_add_lt_is_or
      (show 2 ^ 3 * (32 * blue + red) + green / 8 < 2 ^ 13 by omega) (green % 8)
    rw [h7, Nat.and_pow_two_sub_one_eq_mod, Nat.shiftLeft_eq, Nat.lor_comm,
      Nat.mul_comm (green % 2 ^ 3) (2 ^ 13), h]
  unfold packWord
  rw [e1, e2, e3]
  omega

/-- Reading the fields back from a packed word. -/
theorem unpack_sum {blue red green : ℕ} (hb : blue ≤ 31) (hr : red ≤ 31)
    (hg : green ≤ 63) (w : ℕ)
    (hw : w = blue * 2 ^ 8 + red * 2 ^ 3 + green / 8 + (green % 8) * 2 ^ 13) :
    (w >>> 8) &&& 31 = blue ∧ (w >>> 3) &&& 31 = red ∧
    ((w &&& 7) <<< 3) ||| (w >>> 13) = green := by
  have h31 : (31 : ℕ) = 2 ^ 5 - 1 := by norm_num
  have h7 : (7 : ℕ) = 2 ^ 3 - 1 := by norm_num
  have hhi : green / 8 < 8 := by omega
  have hlo : green % 8 < 8 := by omega
  have hsplit : green = 8 * (green / 8) + green % 8 := by omega
  generalize green / 8 = gh at hw hhi hsplit
  generalize green % 8 = gl at hw hlo hsplit
  have hw8 : w / 2 ^ 8 = blue + 32 * gl := by omega
  have hw3 : w / 2 ^ 3 = 32 * (blue + 32 * gl) + red := by omega
  have hw13 : w / 2 ^ 13 = gl := by omega
  have hwl : w % 2 ^ 3 = gh := by omega
  refine ⟨?_, ?_, ?_⟩
  · rw [h31, Nat.and_pow_two_sub_one_eq_mod, Nat.shiftRight_eq_div_pow, hw8]
    omega
  · rw [h31, Nat.and_pow_two_sub_one_eq_mod, Nat.shiftRight_eq_div_pow, hw3]
    omega
  · have h := Nat.mul_add_lt_is_or (show gl < 2 ^ 3 by omega) gh
    rw [h7, Nat.and_pow_two_sub_one_eq_mod, Nat.shiftLeft_eq, Nat.shiftRight_eq_div_pow,
      hw13, hwl, Nat.mul_comm gh (2 ^ 3), ← h]
    omega

/-- For a value whose integral part is representable, from `0` up to but
not including `256`, the conversion `toUInt8` is the floor. -/
theorem toUInt8_in_range [FloorRing F] (x : F) (h0 : 0 ≤ x) (h1 : x < 256) :
    toUInt8 x = ⌊x⌋.toNat := by
  have hf0 : 0 ≤ ⌊x⌋ := Int.floor_nonneg.mpr h0
  have hf1 : ⌊x⌋ < 256 := by
    have : ⌊x⌋ < ((256 : ℤ) : F) := lt_of_le_of_lt (Int.floor_le x) (by exact_mod_cast h1)
    exact_mod_cast this
  unfold toUInt8
  rw [if_pos h0, Int.emod_eq_of_lt hf0 hf1]

/-- A vector of magnitude `1` has squared length `1`. -/
theorem dot_self_of_magnitude_one {sqrt : F → F} (hsqrt : IsSqrt sqrt) {u : Vec3D F}
    (hu : getMagnitude sqrt u = 1) : dot u u = 1 := by
  obtain ⟨_, h1⟩ := hsqrt _ (dot_self_nonneg u)
  have h2 : sqrt (dot u u) = 1 := hu
  rw [h2] at h1
  rw [← h1]; norm_num

/-- The dot product of two vectors of squared length `1` lies between `-1`
and `1`. -/
theorem dot_bounds_of_unit {u v : Vec3D F} (hu : dot u u = 1) (hv : dot v v = 1) :
    -1 ≤ dot u v ∧ dot u v ≤ 1 := by
  simp only [dot] at hu hv ⊢
  constructor
  · nlinarith [mul_self_nonneg (u.i + v.i), mul_self_nonneg (u.j + v.j),
      mul_self_nonneg (u.k + v.k)]
  · nlinarith [mul_self_nonneg (u.i - v.i), mul_self_nonneg (u.j - v.j),
      mul_self_nonneg (u.k - v.k)]

/-- With the zero direction the result of `getSphereIntersectionT` is not
positive. -/
theorem zero_direction_not_pos (sqrt : F → F) (origin : Vec3D F) (sphere : Sphere F) :
    ¬ 0 < getSphereIntersectionT sqrt origin ⟨0, 0, 0⟩ sphere := by
  simp only [getSphereIntersectionT, dot]
  norm_num

/-- Two distinct points have a positive squared distance. -/
theorem findVec_dot_pos_of_ne {a b : Vec3D F} (h : a ≠ b) :
    0 < dot (findVec a b) (findVec a b) := by
  apply dot_self_pos
  intro h0
  apply h
  rcases a with ⟨a1, a2, a3⟩
  rcases b with ⟨b1, b2, b3⟩
  simp only [findVec, Vec3D.mk.injEq] at h0
  obtain ⟨h1, h2, h3⟩ := h0
  simp only [Vec3D.mk.injEq]
  exact ⟨by linarith, by linarith, by linarith⟩

/-- What a reported hit holds, in a scene whose spheres have positive radius:
the direction is not zero, the normal has magnitude `1`, and for the sphere
selected by the loop the position is on its surface and at positive distance
from its centre, the normal points outward and the colour is the sphere's. -/
theorem hit_spec {sqrt : F → F} (hsqrt : IsSqrt sqrt) (scene : List (Sphere F))
    (output : Intersection F) (origin direction : Vec3D F)
    (hrad : ∀ s ∈ scene, 0 < s.radius)
    (hhit : (getSceneIntersection sqrt scene output origin direction).isHit = true) :
    direction ≠ ⟨0, 0, 0⟩ ∧
    getMagnitude sqrt (getSceneIntersection sqrt scene output origin direction).normal = 1 ∧
    ∃ s ∈ scene, (closestLoop sqrt scene origin direction).2 = some s ∧
      dot (findVec s.position (getSceneIntersection sqrt scene output origin direction).position)
          (findVec s.position (getSceneIntersection sqrt scene output origin direction).position)
        = s.radius * s.radius ∧
      (getSceneIntersection sqrt scene output origin direction).normal
        = findUnitVec sqrt s.position
            (getSceneIntersection sqrt scene output origin direction).position ∧
      (getSceneIntersection sqrt scene output origin direction).colour = s.colour := by
  obtain ⟨s, hs, heq, hpos, _⟩ :=
    closestLoop_of_isHit sqrt scene output origin direction hhit
  have hdir : direction ≠ ⟨0, 0, 0⟩ := by
    intro h0
    rw [h0] at hpos
    exact zero_direction_not_pos sqrt origin s hpos
  have hsurf := pos_result_on_surface hsqrt origin direction s (dot_self_pos hdir) hpos
  have hr := hrad s hs
  have hdist : 0 < dot
      (findVec s.position
        (add origin (scale direction (getSphereIntersectionT sqrt origin direction s))))
      (findVec s.position
        (add origin (scale direction (getSphereIntersectionT sqrt origin direction s)))) := by
    rw [hsurf]; exact mul_pos hr hr
  obtain ⟨hunit, _, _⟩ := findUnitVec_spec hsqrt _ _ hdist
  rw [getSceneIntersection_of_some sqrt scene output origin direction _ s heq]
  refine ⟨hdir, hunit, s, hs, ?_, hsurf, rfl, rfl⟩
  rw [heq]

/-- `normalised` returns its argument, so the primary ray is the screen
position itself. -/
theorem primaryRay_eq (sqrt : F → F) (focalLength x y : F) :
    primaryRay sqrt focalLength x y = ⟨x, y, focalLength⟩ := rfl

/-- The primary ray of the centre pixel meets the first sphere of the
compiled-in scene at parameter `19/24`. -/
theorem centre_pixel_first_sphere {sqrt : F → F} (hsqrt : IsSqrt sqrt) :
    getSphereIntersectionT sqrt ⟨0, 0, 0⟩ ⟨0, 0, 240⟩
      ⟨⟨0, 0, 240⟩, 50, Material.DIFFUSE, ⟨1, 0, 0⟩⟩ = 19 / 24 := by
  have hs : sqrt 576000000 = 24000 := hsqrt.eq_of_mul_self (by norm_num) (by norm_num)
  simp only [getSphereIntersectionT, dot, findVec]
  norm_num [hs]

/-- The primary ray of the centre pixel misses the second sphere. -/
theorem centre_pixel_second_sphere (sqrt : F → F) :
    getSphereIntersectionT sqrt ⟨0, 0, 0⟩ ⟨0, 0, 240⟩
      ⟨⟨0, -10050, 240⟩, 10000, Material.DIFFUSE, ⟨0, 1, 0⟩⟩ = -1 := by
  simp only [getSphereIntersectionT, dot, findVec]
  norm_num

/-- The record that the primary query of the centre pixel returns in the
compiled-in scene. -/
theorem centre_pixel_first_intersection {sqrt : F → F} (hsqrt : IsSqrt sqrt)
    (output : Intersection F) :
    getSceneIntersection sqrt spheres output ⟨0, 0, 0⟩ (primaryRay sqrt 240 0 0)
      = ⟨true, ⟨0, 0, 190⟩, ⟨0, 0, -1⟩, Material.DIFFUSE, ⟨1, 0, 0⟩⟩ := by
  have hs : sqrt 2500 = 50 := hsqrt.eq_of_mul_self (by norm_num) (by norm_num)
  have hloop : closestLoop sqrt spheres ⟨0, 0, 0⟩ ⟨0, 0, 240⟩
      = (19 / 24, some ⟨⟨0, 0, 240⟩, 50, Material.DIFFUSE, ⟨1, 0, 0⟩⟩) := by
    simp only [closestLoop, spheres, List.foldl_cons, List.foldl_nil, closestStep,
      centre_pixel_first_sphere hsqrt, centre_pixel_second_sphere, closestTInit]
    norm_num
  rw [primaryRay_eq, getSceneIntersection_of_some sqrt spheres output _ _ _ _ hloop]
  simp only [findUnitVec, getMagnitude, add, scale]
  norm_num [hs]

/-- Every sphere of the compiled-in scene has a positive radius. -/
theorem spheres_radius_pos : ∀ s ∈ (spheres : List (Sphere F)), 0 < s.radius := by
  intro s hs
  simp only [spheres, List.mem_cons, List.mem_singleton, List.not_mem_nil, or_false] at hs
  rcases hs with rfl | rfl <;> norm_num

/-- `getPixelColour` in terms of its locals `firstIntersection`,
`nextIntersection` and `portionOfLight`. -/
theorem getPixelColour_eq (sqrt : F → F) (scene : List (Sphere F))
    (out1 out2 : Intersection F) (focalLength x y : F) :
    getPixelColour sqrt scene out1 out2 focalLength x y
      = if (firstIntersection sqrt scene out1 focalLength x y).isHit = true then
          (if (nextIntersection sqrt scene out1 out2 focalLength x y).isHit = true then
            scaleColour
              (scaleColour (firstIntersection sqrt scene out1 focalLength x y).colour
                (portionOfLight sqrt scene out1 focalLength x y)) (8 / 10)
          else
            scaleColour (firstIntersection sqrt scene out1 focalLength x y).colour
              (portionOfLight sqrt scene out1 focalLength x y))
        else ⟨0, 0, 0⟩ := rfl

/-- The record `firstIntersection` of the centre pixel in the compiled-in
scene. -/
theorem centre_pixel_firstIntersection {sqrt : F → F} (hsqrt : IsSqrt sqrt)
    (out1 : Intersection F) :
    firstIntersection sqrt spheres out1 240 0 0
      = ⟨true, ⟨0, 0, 190⟩, ⟨0, 0, -1⟩, Material.DIFFUSE, ⟨1, 0, 0⟩⟩ :=
  centre_pixel_first_intersection hsqrt out1

/-- The primary ray of the pixel `i = 0`, `j = 114` (`x = -120`, `y = 6`)
misses both spheres of the compiled-in scene. -/
theorem edge_pixel_firstIntersection_miss (sqrt : F → F) (out1 : Intersection F) :
    (firstIntersection sqrt spheres out1 240 (-120) 6).isHit = false := by
  have h1 : getSphereIntersectionT sqrt ⟨0, 0, 0⟩ ⟨-120, 6, 240⟩
      ⟨⟨0, 0, 240⟩, 50, Material.DIFFUSE, ⟨1, 0, 0⟩⟩ = -1 := by
    simp only [getSphereIntersectionT, dot, findVec]
    norm_num
  have h2 : getSphereIntersectionT sqrt ⟨0, 0, 0⟩ ⟨-120, 6, 240⟩
      ⟨⟨0, -10050, 240⟩, 10000, Material.DIFFUSE, ⟨0, 1, 0⟩⟩ = -1 := by
    simp only [getSphereIntersectionT, dot, findVec]
    norm_num
  have hloop : closestLoop sqrt spheres ⟨0, 0, 0⟩ ⟨-120, 6, 240⟩ = (closestTInit, none) := by
    simp only [closestLoop, spheres, List.foldl_cons, List.foldl_nil, closestStep, h1, h2]
    norm_num
  simp only [firstIntersection, primaryRay_eq]
  rw [isHit_eq_isSome, hloop]
  rfl

/-- The word that `convertColour` gives for black. -/
theorem convertColour_black [FloorRing F] : convertColour (⟨0, 0, 0⟩ : Colour F) = 0 := by
  have hr : redChannel (⟨0, 0, 0⟩ : Colour F) = 0 := by
    simp only [redChannel, toUInt8]
    norm_num
  have hg : greenChannel (⟨0, 0, 0⟩ : Colour F) = 0 := by
    simp only [greenChannel, toUInt8]
    norm_num
  have hb : blueChannel (⟨0, 0, 0⟩ : Colour F) = 0 := by
    simp only [blueChannel, toUInt8]
    norm_num
  simp only [convertColour, hr, hg, hb]
  decide

/-- `drawPoint` with coordinates inside the image writes one cell. -/
theorem drawPoint_inside (screenBuffer : ℕ → ℕ) (x y : ℤ) (colour : ℕ)
    (hx0 : 0 ≤ x) (hx : x < 240) (hy0 : 0 ≤ y) (hy : y < 240) :
    drawPoint screenBuffer x y colour
      = fun cell => if cell = (y * 240 + x).toNat then colour else screenBuffer cell := by
  unfold drawPoint
  rw [if_neg (by omega)]

/-- The pixels of a loop nest: rows from `jStart` up to `jEnd`, columns from
`0` up to `240`. -/
theorem mem_loopPixels (jStart jEnd : ℕ) (h : jStart ≤ jEnd) (p : ℤ × ℤ) :
    p ∈ loopPixels jStart jEnd ↔
      (jStart : ℤ) ≤ p.2 ∧ p.2 < (jEnd : ℤ) ∧ 0 ≤ p.1 ∧ p.1 < 240 := by
  simp only [loopPixels, List.mem_flatMap, List.mem_range'_1, List.mem_map, List.mem_range]
  constructor
  · rintro ⟨j, ⟨hj1, hj2⟩, i, hi, rfl⟩
    simp only
    omega
  · rintro ⟨h1, h2, h3, h4⟩
    refine ⟨p.2.toNat, ⟨by omega, by omega⟩, p.1.toNat, by omega, ?_⟩
    apply Prod.ext
    · simp only; omega
    · simp only; omega

/-- A loop nest visits no pixel twice. -/
theorem loopPixels_nodup (jStart jEnd : ℕ) : (loopPixels jStart jEnd).Nodup := by
  unfold loopPixels
  rw [List.nodup_flatMap]
  constructor
  · intro j _
    apply List.Nodup.map _ (List.nodup_range 240)
    intro a b hab
    simp only [Prod.mk.injEq, Nat.cast_inj, and_true] at hab
    exact hab
  · apply List.Pairwise.imp _ (List.nodup_range' jStart (jEnd - jStart))
    intro a b hab
    simp only [Function.onFun]
    intro q hqa hqb
    simp only [List.mem_map, List.mem_range] at hqa hqb
    obtain ⟨_, _, rfl⟩ := hqa
    obtain ⟨_, _, hq⟩ := hqb
    simp only [Prod.mk.injEq, Nat.cast_inj] at hq
    exact hab hq.2.symm

/-- The two ways of testing a pair of integers for equality agree. -/
theorem beq_pair_eq : (instBEqProd : BEq (ℤ × ℤ)) = instBEqOfDecidableEq := by
  have h : ∀ a b : ℤ × ℤ, (instBEqProd : BEq (ℤ × ℤ)).beq a b
      = (instBEqOfDecidableEq : BEq (ℤ × ℤ)).beq a b := by
    rintro ⟨a1, a2⟩ ⟨b1, b2⟩
    show (a1 == b1 && a2 == b2) = decide ((a1, a2) = (b1, b2))
    simp only [Prod.mk.injEq, Bool.decide_and]
    rfl
  cases h1 : (instBEqProd : BEq (ℤ × ℤ)) with
  | mk f =>
    cases h2 : (instBEqOfDecidableEq : BEq (ℤ × ℤ)) with
    | mk g =>
      congr
      funext a b
      have := h a b
      rw [h1, h2] at this
      exact this

/-- How often a loop nest visits a pixel: once if the pixel is in its rows,
never otherwise. -/
theorem count_loopPixels (jStart jEnd : ℕ) (h : jStart ≤ jEnd) (p : ℤ × ℤ) :
    List.count p (loopPixels jStart jEnd)
      = if (jStart : ℤ) ≤ p.2 ∧ p.2 < (jEnd : ℤ) ∧ 0 ≤ p.1 ∧ p.1 < 240 then 1 else 0 := by
  split_ifs with hp
  · have h1 := List.count_eq_one_of_mem (loopPixels_nodup jStart jEnd)
      ((mem_loopPixels jStart jEnd h p).mpr hp)
    rw [beq_pair_eq]
    exact h1
  · exact List.count_eq_zero_of_not_mem (fun hm => hp ((mem_loopPixels jStart jEnd h p).mp hm))

/-- One iteration of a render loop at a pixel inside the image writes the
quantised colour of the pixel into the cell of the pixel. -/
theorem renderPixel_inside [FloorRing F] (sqrt : F → F) (scene : List (Sphere F))
    (out1 out2 : Intersection F) (screenBuffer : ℕ → ℕ) (p : ℤ × ℤ)
    (hp : 0 ≤ p.1 ∧ p.1 < 240 ∧ 0 ≤ p.2 ∧ p.2 < 240) :
    renderPixel sqrt scene out1 out2 screenBuffer p
      = fun cell => if cell = (p.2 * 240 + p.1).toNat then
          convertColour (getPixelColour sqrt scene out1 out2 240
            ((p.1 - 120 : ℤ) : F) ((120 - p.2 : ℤ) : F))
        else screenBuffer cell := by
  simp only [renderPixel, focalLength]
  exact drawPoint_inside screenBuffer p.1 p.2 _ hp.1 hp.2.1 hp.2.2.1 hp.2.2.2

/-- A run of iterations leaves a cell that is the cell of none of its pixels
as it was. -/
theorem foldl_renderPixel_other [FloorRing F] (sqrt : F → F) (scene : List (Sphere F))
    (out1 out2 : Intersection F) (ps : List (ℤ × ℤ)) (screenBuffer : ℕ → ℕ) (k : ℕ)
    (hin : ∀ p ∈ ps, 0 ≤ p.1 ∧ p.1 < 240 ∧ 0 ≤ p.2 ∧ p.2 < 240)
    (hk : ∀ p ∈ ps, (p.2 * 240 + p.1).toNat ≠ k) :
    ps.foldl (renderPixel sqrt scene out1 out2) screenBuffer k = screenBuffer k := by
  induction ps generalizing screenBuffer with
  | nil => rfl
  | cons q rest ih =>
    rw [List.foldl_cons,
      ih _ (fun p hp => hin p (List.mem_cons_of_mem _ hp))
        (fun p hp => hk p (List.mem_cons_of_mem _ hp)),
      renderPixel_inside sqrt scene out1 out2 screenBuffer q (hin q (List.mem_cons_self _ _))]
    simp only
    rw [if_neg (fun h => hk q (List.mem_cons_self _ _) h.symm)]

/-- After a run of iterations over pixels inside the image, the cell of each
of its pixels holds the quantised colour of that pixel. -/
theorem foldl_renderPixel_written [FloorRing F] (sqrt : F → F) (scene : List (Sphere F))
    (out1 out2 : Intersection F) (ps : List (ℤ × ℤ)) (screenBuffer : ℕ → ℕ) (p : ℤ × ℤ)
    (hin : ∀ q ∈ ps, 0 ≤ q.1 ∧ q.1 < 240 ∧ 0 ≤ q.2 ∧ q.2 < 240) (hp : p ∈ ps) :
    ps.foldl (renderPixel sqrt scene out1 out2) screenBuffer (p.2 * 240 + p.1).toNat
      = convertColour (getPixelColour sqrt scene out1 out2 240
          ((p.1 - 120 : ℤ) : F) ((120 - p.2 : ℤ) : F)) := by
  induction ps using List.reverseRecOn with
  | nil => simp at hp
  | append_singleton init last ih =>
    have hlast := hin last (by simp)
    rw [List.foldl_append, List.foldl_cons, List.foldl_nil,
      renderPixel_inside sqrt scene out1 out2 _ last hlast]
    simp only
    by_cases hidx : (p.2 * 240 + p.1).toNat = (last.2 * 240 + last.1).toNat
    · have hpin := hin p hp
      have hpl : p = last := by
        apply Prod.ext
        · omega
        · omega
      rw [if_pos hidx, hpl]
    · rw [if_neg hidx]
      have hpinit : p ∈ init := by
        rcases List.mem_append.mp hp with h | h
        · exact h
        · simp only [List.mem_singleton] at h
          rw [h] at hidx
          exact absurd rfl hidx
      exact ih (fun q hq => hin q (List.mem_append_left _ hq)) hpinit

/-- The pixels of a loop nest within the image rows are inside the image. -/
theorem loopPixels_inside (jStart jEnd : ℕ) (h : jStart ≤ jEnd) (hEnd : jEnd ≤ 240) :
    ∀ p ∈ loopPixels jStart jEnd, 0 ≤ p.1 ∧ p.1 < 240 ∧ 0 ≤ p.2 ∧ p.2 < 240 := by
  intro p hp
  have := (mem_loopPixels jStart jEnd h p).mp hp
  omega

/-- The cells that a loop nest writes: those of the rows of the nest. -/
theorem loopPixels_cells (jStart jEnd : ℕ) (h : jStart ≤ jEnd) (k : ℕ) :
    (∃ p ∈ loopPixels jStart jEnd, (p.2 * 240 + p.1).toNat = k) ↔
      jStart * 240 ≤ k ∧ k < jEnd * 240 := by
  constructor
  · rintro ⟨p, hp, rfl⟩
    have := (mem_loopPixels jStart jEnd h p).mp hp
    omega
  · rintro ⟨h1, h2⟩
    refine ⟨(((k % 240 : ℕ) : ℤ), ((k / 240 : ℕ) : ℤ)), ?_, ?_⟩
    · rw [mem_loopPixels jStart jEnd h]
      simp only
      omega
    · simp only
      omega

/-- The magnitude that `findUnitVec` divides by is positive for two points at
positive squared distance. -/
theorem getMagnitude_findVec_pos {sqrt : F → F} (hsqrt : IsSqrt sqrt) (a b : Vec3D F)
    (hab : 0 < dot (findVec a b) (findVec a b)) :
    0 < getMagnitude sqrt (findVec a b) := by
  obtain ⟨h0, h1⟩ := hsqrt _ hab.le
  have hm : getMagnitude sqrt (findVec a b) = sqrt (dot (findVec a b) (findVec a b)) := rfl
  rw [hm]
  rcases h0.lt_or_eq with h | h
  · exact h
  · rw [← h] at h1
    rw [← h1] at hab
    simp at hab

/-- The light of the compiled-in configuration is on the surface of neither
sphere of the compiled-in scene. -/
theorem lightPos_not_on_surface :
    ∀ s ∈ (spheres : List (Sphere F)),
      dot (findVec s.position lightPos) (findVec s.position lightPos)
        ≠ s.radius * s.radius := by
  intro s hs
  simp only [spheres, List.mem_cons, List.mem_singleton, List.not_mem_nil, or_false] at hs
  rcases hs with rfl | rfl
  · simp only [dot, findVec, lightPos]
    norm_num
  · simp only [dot, findVec, lightPos]
    norm_num

/-- A hit in the compiled-in scene: the position differs from the centre of
the selected sphere and from the light, and both magnitudes that
`findUnitVec` then divides by are positive. -/
theorem compiled_hit_divisors {sqrt : F → F} (hsqrt : IsSqrt sqrt)
    (output : Intersection F) (origin direction : Vec3D F)
    (hhit : (getSceneIntersection sqrt spheres output origin direction).isHit = true) :
    direction ≠ ⟨0, 0, 0⟩ ∧
    (getSceneIntersection sqrt spheres output origin direction).position ≠ lightPos ∧
    0 < getMagnitude sqrt
      (findVec (getSceneIntersection sqrt spheres output origin direction).position lightPos) ∧
    ∃ s ∈ (spheres : List (Sphere F)),
      (closestLoop sqrt spheres origin direction).2 = some s ∧
      (getSceneIntersection sqrt spheres output origin direction).position ≠ s.position ∧
      0 < getMagnitude sqrt
        (findVec s.position
          (getSceneIntersection sqrt spheres output origin direction).position) := by
  obtain ⟨hdir, _, s, hs, hsel, hsurf, _, _⟩ :=
    hit_spec hsqrt spheres output origin direction spheres_radius_pos hhit
  have hr := spheres_radius_pos s hs
  have hpos : 0 < dot
      (findVec s.position (getSceneIntersection sqrt spheres output origin direction).position)
      (findVec s.position (getSceneIntersection sqrt spheres output origin direction).position)
      := by
    rw [hsurf]; exact mul_pos hr hr
  have hne : (getSceneIntersection sqrt spheres output origin direction).position
      ≠ lightPos := by
    intro h
    rw [h] at hsurf
    exact lightPos_not_on_surface s hs hsurf
  have hnc : (getSceneIntersection sqrt spheres output origin direction).position
      ≠ s.position := by
    intro h
    rw [h] at hpos
    simp [dot, findVec] at hpos
  exact ⟨hdir, hne, getMagnitude_findVec_pos hsqrt _ _ (findVec_dot_pos_of_ne hne),
    s, hs, hsel, hnc, getMagnitude_findVec_pos hsqrt _ _ hpos⟩

/-- A ray that starts outside a sphere and does not point toward its centre
gets no positive result. -/
theorem not_pos_of_outside_away {sqrt : F → F} (hsqrt : IsSqrt sqrt)
    (origin direction : Vec3D F) (sphere : Sphere F)
    (ha : 0 < dot direction direction)
    (hb : 0 ≤ dot direction (findVec sphere.position origin))
    (hc : sphere.radius * sphere.radius
      < dot (findVec sphere.position origin) (findVec sphere.position origin)) :
    ¬ 0 < getSphereIntersectionT sqrt origin direction sphere := by
  have hcases := getSphereIntersectionT_cases hsqrt origin direction sphere ha
  dsimp only at hcases
  rcases hcases with ⟨_, hT⟩ | ⟨s, hs0, hss, hle, h⟩
  · rw [hT]; norm_num
  · have hsb : s < 2 * dot direction (findVec sphere.position origin) := by
      by_contra hge
      have hge := not_lt.mp hge
      have hsq : (2 * dot direction (findVec sphere.position origin))
          * (2 * dot direction (findVec sphere.position origin)) ≤ s * s :=
        mul_self_le_mul_self (by linarith) hge
      have hac : 0 < 4 * dot direction direction
          * (dot (findVec sphere.position origin) (findVec sphere.position origin)
              - sphere.radius * sphere.radius) :=
        mul_pos (by linarith) (by linarith)
      linarith
    have ht1 : (-(2 * dot direction (findVec sphere.position origin)) + s)
        / (2 * dot direction direction) < 0 :=
      div_neg_of_neg_of_pos (by linarith) (by linarith)
    rcases h with ⟨_, hT⟩ | ⟨h2, _⟩ | ⟨_, h1, _⟩
    · exact not_lt.mpr hT
    · exact absurd (lt_of_lt_of_le h2 hle) (not_lt.mpr ht1.le)
    · exact absurd h1 (not_lt.mpr ht1.le)

/-- In the compiled-in scene the diffuse term of a primary hit lies between
`0` and `1`. -/
theorem compiled_portionOfLight_bounds {sqrt : F → F} (hsqrt : IsSqrt sqrt)
    (out1 : Intersection F) (focalLength x y : F)
    (hhit : (firstIntersection sqrt spheres out1 focalLength x y).isHit = true) :
    0 ≤ portionOfLight sqrt spheres out1 focalLength x y ∧
    portionOfLight sqrt spheres out1 focalLength x y ≤ 1 := by
  obtain ⟨_, hunit, _⟩ := hit_spec hsqrt spheres out1 _ _ spheres_radius_pos hhit
  obtain ⟨_, hne, _⟩ := compiled_hit_divisors hsqrt out1 _ _ hhit
  have hL := (findUnitVec_spec hsqrt _ _ (findVec_dot_pos_of_ne hne)).1
  obtain ⟨hlo, hhi⟩ :
      -1 ≤ dot (firstIntersection sqrt spheres out1 focalLength x y).normal
          (shadowRay sqrt spheres out1 focalLength x y) ∧
      dot (firstIntersection sqrt spheres out1 focalLength x y).normal
          (shadowRay sqrt spheres out1 focalLength x y) ≤ 1 :=
    dot_bounds_of_unit (dot_self_of_magnitude_one hsqrt hunit)
      (dot_self_of_magnitude_one hsqrt hL)
  simp only [portionOfLight]
  constructor
  · exact div_nonneg (by linarith) (by norm_num)
  · rw [div_le_one (by norm_num)]
    linarith

/-- In the compiled-in scene every component of the colour of a pixel lies
between `0` and `1`. -/
theorem compiled_pixel_colour_bounds {sqrt : F → F} (hsqrt : IsSqrt sqrt)
    (out1 out2 : Intersection F) (focalLength x y : F) :
    0 ≤ (getPixelColour sqrt spheres out1 out2 focalLength x y).red ∧
    (getPixelColour sqrt spheres out1 out2 focalLength x y).red ≤ 1 ∧
    0 ≤ (getPixelColour sqrt spheres out1 out2 focalLength x y).green ∧
    (getPixelColour sqrt spheres out1 out2 focalLength x y).green ≤ 1 ∧
    0 ≤ (getPixelColour sqrt spheres out1 out2 focalLength x y).blue ∧
    (getPixelColour sqrt spheres out1 out2 focalLength x y).blue ≤ 1 := by
  rw [getPixelColour_eq]
  by_cases hhit : (firstIntersection sqrt spheres out1 focalLength x y).isHit = true
  · rw [if_pos hhit]
    obtain ⟨h0, h1⟩ := compiled_portionOfLight_bounds hsqrt out1 focalLength x y hhit
    obtain ⟨_, _, s, hs, _, _, _, hcol⟩ :=
      hit_spec hsqrt spheres out1 _ _ spheres_radius_pos hhit
    have hcol' : (firstIntersection sqrt spheres out1 focalLength x y).colour = s.colour :=
      hcol
    have h8 : portionOfLight sqrt spheres out1 focalLength x y * (8 / 10) ≤ 1 := by
      nlinarith
    have h80 : 0 ≤ portionOfLight sqrt spheres out1 focalLength x y * (8 / 10) :=
      mul_nonneg h0 (by norm_num)
    simp only [spheres, List.mem_cons, List.mem_singleton, List.not_mem_nil, or_false] at hs
    rcases hs with rfl | rfl
    · split_ifs
      · simp only [scaleColour, hcol', one_mul, zero_mul]
        exact ⟨h80, h8, le_refl _, zero_le_one, le_refl _, zero_le_one⟩
      · simp only [scaleColour, hcol', one_mul, zero_mul]
        exact ⟨h0, h1, le_refl _, zero_le_one, le_refl _, zero_le_one⟩
    · split_ifs
      · simp only [scaleColour, hcol', one_mul, zero_mul]
        exact ⟨le_refl _, zero_le_one, h80, h8, le_refl _, zero_le_one⟩
      · simp only [scaleColour, hcol', one_mul, zero_mul]
        exact ⟨le_refl _, zero_le_one, h0, h1, le_refl _, zero_le_one⟩
  · rw [if_neg hhit]
    exact ⟨le_refl _, zero_le_one, le_refl _, zero_le_one, le_refl _, zero_le_one⟩

/-- A value between `0` and a bound below `256` converts to at most the
bound. -/
theorem toUInt8_le_of_le [FloorRing F] (x : F) (n : ℕ) (h0 : 0 ≤ x) (hx : x ≤ (n : F))
    (hn : n < 256) : toUInt8 x = ⌊x⌋.toNat ∧ toUInt8 x ≤ n := by
  have hlt : x < 256 := lt_of_le_of_lt hx (by exact_mod_cast hn)
  have heq := toUInt8_in_range x h0 hlt
  refine ⟨heq, ?_⟩
  rw [heq, Int.toNat_le]
  have h1 : ⌊x⌋ ≤ ⌊(n : F)⌋ := Int.floor_mono hx
  rwa [Int.floor_natCast] at h1

/-- A ray that starts outside a sphere, points toward its centre and has a
non-negative discriminant gets a positive result, below `-b/a`. -/
theorem pos_result_of_toward {sqrt : F → F} (hsqrt : IsSqrt sqrt)
    (origin direction : Vec3D F) (sphere : Sphere F)
    (ha : 0 < dot direction direction)
    (hb : dot direction (findVec sphere.position origin) < 0)
    (hc : sphere.radius * sphere.radius
      < dot (findVec sphere.position origin) (findVec sphere.position origin))
    (hD : 0 ≤ 2 * dot direction (findVec sphere.position origin)
        * (2 * dot direction (findVec sphere.position origin))
      - 4 * dot direction direction
        * (dot (findVec sphere.position origin) (findVec sphere.position origin)
            - sphere.radius * sphere.radius)) :
    0 < getSphereIntersectionT sqrt origin direction sphere ∧
    getSphereIntersectionT sqrt origin direction sphere
      < -(2 * dot direction (findVec sphere.position origin)) / dot direction direction := by
  have hcases := getSphereIntersectionT_cases hsqrt origin direction sphere ha
  dsimp only at hcases
  have h2a : 0 < 2 * dot direction direction := by linarith
  rcases hcases with ⟨hDneg, _⟩ | ⟨s, hs0, hss, hle, h⟩
  · exact absurd hD (not_le.mpr hDneg)
  · have hac : 0 < 4 * dot direction direction
          * (dot (findVec sphere.position origin) (findVec sphere.position origin)
              - sphere.radius * sphere.radius) :=
      mul_pos (by linarith) (by linarith)
    have hsb : s < -(2 * dot direction (findVec sphere.position origin)) := by
      by_contra hge
      have hge := not_lt.mp hge
      have hsq : (-(2 * dot direction (findVec sphere.position origin)))
          * (-(2 * dot direction (findVec sphere.position origin))) ≤ s * s :=
        mul_self_le_mul_self (by linarith) hge
      nlinarith
    have ht2 : 0 < (-(2 * dot direction (findVec sphere.position origin)) - s)
        / (2 * dot direction direction) := div_pos (by linarith) h2a
    have ht1 : (-(2 * dot direction (findVec sphere.position origin)) + s)
          / (2 * dot direction direction)
        < -(2 * dot direction (findVec sphere.position origin)) / dot direction direction := by
      rw [div_lt_div_iff₀ h2a ha]
      nlinarith
    rcases h with ⟨h1, _⟩ | ⟨_, hT⟩ | ⟨h2, _, _⟩
    · exact absurd (lt_of_lt_of_le ht2 hle) (not_lt.mpr h1)
    · rw [hT]
      exact ⟨ht2, lt_of_le_of_lt hle ht1⟩
    · exact absurd ht2 (not_lt.mpr h2)

/-- At the centre pixel of the compiled-in scene the shadow query reports a
hit: the hit point `(0,0,190)` faces away from the light and the shadow ray
enters its own sphere. -/
theorem centre_pixel_nextIntersection_hit {sqrt : F → F} (hsqrt : IsSqrt sqrt)
    (out1 out2 : Intersection F) :
    (nextIntersection sqrt spheres out1 out2 240 0 0).isHit = true := by
  obtain ⟨hm0, hmm⟩ := hsqrt 20100 (by norm_num)
  have hmpos : 0 < sqrt 20100 := by
    rcases hm0.lt_or_eq with h | h
    · exact h
    · rw [← h] at hmm; norm_num at hmm
  have hmne := hmpos.ne'
  have hray : shadowRay sqrt spheres out1 240 0 0
      = ⟨100 / sqrt 20100, 100 / sqrt 20100, 10 / sqrt 20100⟩ := by
    simp only [shadowRay, centre_pixel_firstIntersection hsqrt, findUnitVec, getMagnitude,
      lightPos]
    norm_num
  have horigin : add (firstIntersection sqrt spheres out1 240 0 0).position
        (scale (firstIntersection sqrt spheres out1 240 0 0).normal ACCURACY)
      = ⟨0, 0, 1899999 / 10000⟩ := by
    simp only [centre_pixel_firstIntersection hsqrt, add, scale, ACCURACY]
    norm_num
  simp only [nextIntersection]
  rw [hray, horigin, isHit_iff_below_sentinel]
  refine ⟨⟨⟨0, 0, 240⟩, 50, Material.DIFFUSE, ⟨1, 0, 0⟩⟩, by simp [spheres], ?_⟩
  have hu2 : (1 / sqrt 20100) * (1 / sqrt 20100) = 1 / 20100 := by
    rw [div_mul_div_comm, hmm]; norm_num
  have hu0 : 0 < 1 / sqrt 20100 := by positivity
  have hu1 : 1 / sqrt 20100 < 1 := by
    by_contra hge
    have hge := not_lt.mp hge
    nlinarith
  have hdd : dot (⟨100 / sqrt 20100, 100 / sqrt 20100, 10 / sqrt 20100⟩ : Vec3D F)
      ⟨100 / sqrt 20100, 100 / sqrt 20100, 10 / sqrt 20100⟩ = 1 := by
    simp only [dot]
    field_simp
    linear_combination (-1 : F) * hmm
  have hdc : dot (⟨100 / sqrt 20100, 100 / sqrt 20100, 10 / sqrt 20100⟩ : Vec3D F)
      (findVec (⟨0, 0, 240⟩ : Vec3D F) ⟨0, 0, 1899999 / 10000⟩)
      = -(500001 / 1000) * (1 / sqrt 20100) := by
    simp only [dot, findVec]
    field_simp
    ring
  have hcc : dot (findVec (⟨0, 0, 240⟩ : Vec3D F) ⟨0, 0, 1899999 / 10000⟩)
      (findVec (⟨0, 0, 240⟩ : Vec3D F) ⟨0, 0, 1899999 / 10000⟩)
      = (500001 / 10000) * (500001 / 10000) := by
    simp only [dot, findVec]
    norm_num
  obtain ⟨hpos, hlt⟩ := pos_result_of_toward hsqrt ⟨0, 0, 1899999 / 10000⟩
    ⟨100 / sqrt 20100, 100 / sqrt 20100, 10 / sqrt 20100⟩
    ⟨⟨0, 0, 240⟩, 50, Material.DIFFUSE, ⟨1, 0, 0⟩⟩
    (by rw [hdd]; exact one_pos)
    (by
      show dot _ (findVec (⟨0, 0, 240⟩ : Vec3D F) ⟨0, 0, 1899999 / 10000⟩) < 0
      rw [hdc]
      nlinarith)
    (by
      show (50 : F) * 50 < dot (findVec (⟨0, 0, 240⟩ : Vec3D F) ⟨0, 0, 1899999 / 10000⟩)
        (findVec (⟨0, 0, 240⟩ : Vec3D F) ⟨0, 0, 1899999 / 10000⟩)
      rw [hcc]
      norm_num)
    (by
      show 0 ≤ 2 * dot _ (findVec (⟨0, 0, 240⟩ : Vec3D F) ⟨0, 0, 1899999 / 10000⟩)
          * (2 * dot _ (findVec (⟨0, 0, 240⟩ : Vec3D F) ⟨0, 0, 1899999 / 10000⟩))
        - 4 * dot _ _ * (dot (findVec (⟨0, 0, 240⟩ : Vec3D F) ⟨0, 0, 1899999 / 10000⟩)
            (findVec (⟨0, 0, 240⟩ : Vec3D F) ⟨0, 0, 1899999 / 10000⟩) - (50 : F) * 50)
      rw [hdd, hdc, hcc]
      nlinarith)
  refine ⟨hpos, lt_trans hlt ?_⟩
  show -(2 * dot _ (findVec (⟨0, 0, 240⟩ : Vec3D F) ⟨0, 0, 1899999 / 10000⟩)) / dot _ _
    < 999999
  rw [hdd, hdc]
  nlinarith

/-- The iterations of the two loop nests partition the pixels of the image,
every iteration passes the bounds test of `drawPoint`, the cells of the
iterations are `0` to `28799` for rows `0` to `119` and `28800` to `57599` for
rows `120` to `239`, and each loop leaves the cells of the other as they
are. -/
theorem loopPixels_partition [FloorRing F] (sqrt : F → F) (scene : List (Sphere F))
    (out1 out2 : Intersection F) (screenBuffer : ℕ → ℕ) :
    (∀ col row : ℤ, 0 ≤ col → col < 240 → 0 ≤ row → row < 240 →
      List.count (col, row) (loopPixels 0 120)
        + List.count (col, row) (loopPixels 120 240) = 1 ∧
      (List.count (col, row) (loopPixels 0 120) = 1 ↔ row < 120) ∧
      (List.count (col, row) (loopPixels 120 240) = 1 ↔ 120 ≤ row)) ∧
    (∀ p ∈ loopPixels 0 120 ++ loopPixels 120 240,
      ¬ (p.1 < 0 ∨ p.2 < 0 ∨ p.1 ≥ 240 ∨ p.2 ≥ 240)) ∧
    (∀ k : ℕ, (∃ p ∈ loopPixels 0 120, (p.2 * 240 + p.1).toNat = k) ↔ k < 28800) ∧
    (∀ k : ℕ, (∃ p ∈ loopPixels 120 240, (p.2 * 240 + p.1).toNat = k) ↔
      28800 ≤ k ∧ k < 57600) ∧
    (∀ k : ℕ, k < 28800 →
      (core1Code sqrt scene out1 out2 screenBuffer).1 k = screenBuffer k) ∧
    (∀ k : ℕ, 28800 ≤ k →
      mainRenderLoop sqrt scene out1 out2 screenBuffer k = screenBuffer k) := by
  refine ⟨?_, ?_, ?_, ?_, ?_, ?_⟩
  · intro col row hc0 hc hr0 hr
    rw [count_loopPixels 0 120 (by norm_num), count_loopPixels 120 240 (by norm_num)]
    simp only
    by_cases hrow : row < 120
    · rw [if_pos (by push_cast; omega), if_neg (by push_cast; omega)]
      exact ⟨rfl, ⟨fun _ => hrow, fun _ => rfl⟩,
        ⟨fun h => absurd h (by norm_num), fun h => absurd h (by omega)⟩⟩
    · rw [if_neg (by push_cast; omega), if_pos (by push_cast; omega)]
      exact ⟨rfl, ⟨fun h => absurd h (by norm_num), fun h => absurd h hrow⟩,
        ⟨fun _ => not_lt.mp hrow, fun _ => rfl⟩⟩
  · intro p hp
    rcases List.mem_append.mp hp with h | h
    · have := loopPixels_inside 0 120 (by norm_num) (by norm_num) p h
      omega
    · have := loopPixels_inside 120 240 (by norm_num) (by norm_num) p h
      omega
  · intro k
    rw [loopPixels_cells 0 120 (by norm_num)]
    omega
  · intro k
    rw [loopPixels_cells 120 240 (by norm_num)]
  · intro k hk
    simp only [core1Code]
    apply foldl_renderPixel_other sqrt scene out1 out2 _ _ _
      (loopPixels_inside 120 240 (by norm_num) (by norm_num))
    intro p hp hidx
    have := (loopPixels_cells 120 240 (by norm_num) k).mp ⟨p, hp, hidx⟩
    omega
  · intro k hk
    simp only [mainRenderLoop]
    apply foldl_renderPixel_other sqrt scene out1 out2 _ _ _
      (loopPixels_inside 0 120 (by norm_num) (by norm_num))
    intro p hp hidx
    have := (loopPixels_cells 0 120 (by norm_num) k).mp ⟨p, hp, hidx⟩
    omega


/-- A cell is overwritten by a loop nest, its final content not depending on
the initial buffer, exactly when it is the cell of a pixel of the nest. -/
theorem loop_overwrites_iff [FloorRing F] (sqrt : F → F) (scene : List (Sphere F))
    (out1 out2 : Intersection F) (jStart jEnd : ℕ) (h : jStart ≤ jEnd) (hEnd : jEnd ≤ 240)
    (k : ℕ) :
    (jStart * 240 ≤ k ∧ k < jEnd * 240) ↔
      ∀ buf buf' : ℕ → ℕ,
        (loopPixels jStart jEnd).foldl (renderPixel sqrt scene out1 out2) buf k
          = (loopPixels jStart jEnd).foldl (renderPixel sqrt scene out1 out2) buf' k := by
  have hin := loopPixels_inside jStart jEnd h hEnd
  constructor
  · intro hk buf buf'
    obtain ⟨p, hp, hidx⟩ := (loopPixels_cells jStart jEnd h k).mpr hk
    rw [← hidx, foldl_renderPixel_written sqrt scene out1 out2 _ buf p hin hp,
      foldl_renderPixel_written sqrt scene out1 out2 _ buf' p hin hp]
  · intro hall
    by_contra hk
    have hne : ∀ p ∈ loopPixels jStart jEnd, (p.2 * 240 + p.1).toNat ≠ k := by
      intro p hp hidx
      exact hk ((loopPixels_cells jStart jEnd h k).mp ⟨p, hp, hidx⟩)
    have h0 := hall (fun _ => 0) (fun _ => 1)
    rw [foldl_renderPixel_other sqrt scene out1 out2 _ _ k hin hne,
      foldl_renderPixel_other sqrt scene out1 out2 _ _ k hin hne] at h0
    exact absurd h0 (by norm_num)

end Lemmas

section Claims

variable {F : Type} [LinearOrderedField F]

/-- C2 as stated fails: from `(0,0,-1000000)` along `(0,0,1)` the first
sphere of the compiled-in scene gives the positive result `1000190`, yet
`getSceneIntersection` reports no hit, because the result is not below the
sentinel `999999`. -/
theorem isHit_iff_some_positive_counterexample :
    ¬ ((getSceneIntersection Real.sqrt (spheres : List (Sphere ℝ))
          ⟨false, ⟨0, 0, 0⟩, ⟨0, 0, 0⟩, Material.DIFFUSE, ⟨0, 0, 0⟩⟩
          ⟨0, 0, -1000000⟩ ⟨0, 0, 1⟩).isHit = true ↔
        ∃ s ∈ (spheres : List (Sphere ℝ)),
          0 < getSphereIntersectionT Real.sqrt ⟨0, 0, -1000000⟩ ⟨0, 0, 1⟩ s) := by
  intro h
  have hpos : ∃ s ∈ (spheres : List (Sphere ℝ)),
      0 < getSphereIntersectionT Real.sqrt ⟨0, 0, -1000000⟩ ⟨0, 0, 1⟩ s := by
    refine ⟨⟨⟨0, 0, 240⟩, 50, Material.DIFFUSE, ⟨1, 0, 0⟩⟩, by simp [spheres], ?_⟩
    rw [far_ray_first_sphere isSqrt_real]
    norm_num
  have hhit := h.mpr hpos
  rw [isHit_iff_below_sentinel] at hhit
  obtain ⟨s, hs, hgt, hlt⟩ := hhit
  simp only [spheres, List.mem_cons, List.mem_singleton, List.not_mem_nil, or_false] at hs
  rcases hs with rfl | rfl
  · rw [far_ray_first_sphere isSqrt_real] at hlt
    norm_num at hlt
  · rw [far_ray_second_sphere] at hgt
    norm_num at hgt

/-- C2, amended: `getSceneIntersection` reports `isHit = true` if and only
if at least one sphere of the scene yields a `getSphereIntersectionT` result
that is positive and below the sentinel `999999` from which `closestT`
starts. -/
theorem isHit_iff_some_positive_below_sentinel (sqrt : F → F) (scene : List (Sphere F))
    (output : Intersection F) (origin direction : Vec3D F) :
    (getSceneIntersection sqrt scene output origin direction).isHit = true ↔
      ∃ s ∈ scene, 0 < getSphereIntersectionT sqrt origin direction s ∧
        getSphereIntersectionT sqrt origin direction s < 999999 :=
  isHit_iff_below_sentinel sqrt scene output origin direction

/-- C4, the code at the centre pixel: `normalised` returns its argument
unscaled, so for `x = 0`, `y = 0` and focal length `240` the primary ray of
`getPixelColour` is `(0,0,240)`, of magnitude `240` and not `1`. -/
theorem normalised_returns_argument_unscaled :
    normalised Real.sqrt (⟨0, 0, 240⟩ : Vec3D ℝ) = ⟨0, 0, 240⟩ ∧
    primaryRay Real.sqrt (240 : ℝ) 0 0 = ⟨0, 0, 240⟩ ∧
    getMagnitude Real.sqrt (primaryRay Real.sqrt (240 : ℝ) 0 0) = 240 ∧
    getMagnitude Real.sqrt (primaryRay Real.sqrt (240 : ℝ) 0 0) ≠ 1 := by
  have hn : normalised Real.sqrt (⟨0, 0, 240⟩ : Vec3D ℝ) = ⟨0, 0, 240⟩ := rfl
  have hp : primaryRay Real.sqrt (240 : ℝ) 0 0 = ⟨0, 0, 240⟩ := rfl
  have hm : getMagnitude Real.sqrt (primaryRay Real.sqrt (240 : ℝ) 0 0) = 240 := by
    rw [hp]
    simp only [getMagnitude]
    exact isSqrt_real.eq_of_mul_self (by norm_num) (by norm_num)
  refine ⟨hn, hp, hm, ?_⟩
  rw [hm]
  norm_num

/-- C7: for a sphere of radius `r > 0`, an origin whose distance to the
centre exceeds `r` and a non-zero direction with
`dot(direction, centre - origin) < 0`, the result of `getSphereIntersectionT`
is not positive, and the loop body of `getSceneIntersection` leaves
`closestT` and `closestSphere` as they are for this sphere. -/
theorem getSphereIntersectionT_pointing_away {sqrt : F → F} (hsqrt : IsSqrt sqrt)
    (origin direction : Vec3D F) (sphere : Sphere F)
    (hr : 0 < sphere.radius)
    (hdist : sphere.radius < getMagnitude sqrt (findVec origin sphere.position))
    (hdir : direction ≠ ⟨0, 0, 0⟩)
    (haway : dot direction (findVec origin sphere.position) < 0) :
    ¬ 0 < getSphereIntersectionT sqrt origin direction sphere ∧
    ∀ st : F × Option (Sphere F), closestStep sqrt origin direction st sphere = st := by
  have ha := dot_self_pos hdir
  have hc : 0 < dot (findVec sphere.position origin) (findVec sphere.position origin)
      - sphere.radius * sphere.radius := by
    obtain ⟨hm0, hmm⟩ := hsqrt _ (dot_self_nonneg (findVec origin sphere.position))
    have hm : sphere.radius < sqrt (dot (findVec origin sphere.position)
        (findVec origin sphere.position)) := hdist
    have hflip : dot (findVec sphere.position origin) (findVec sphere.position origin)
        = dot (findVec origin sphere.position) (findVec origin sphere.position) := by
      simp only [dot, findVec]; ring
    rw [hflip, ← hmm]
    nlinarith
  have hb : 0 < 2 * dot direction (findVec sphere.position origin) := by
    have hflip : dot direction (findVec sphere.position origin)
        = -dot direction (findVec origin sphere.position) := by
      simp only [dot, findVec]; ring
    rw [hflip]; linarith
  have hnot : ¬ 0 < getSphereIntersectionT sqrt origin direction sphere := by
    have hcases := getSphereIntersectionT_cases hsqrt origin direction sphere ha
    dsimp only at hcases
    rcases hcases with ⟨_, hT⟩ | ⟨s, hs0, hss, hle, h⟩
    · rw [hT]; norm_num
    · have hsb : s < 2 * dot direction (findVec sphere.position origin) := by
        by_contra hge
        have hge := not_lt.mp hge
        have hsq : (2 * dot direction (findVec sphere.position origin))
            * (2 * dot direction (findVec sphere.position origin)) ≤ s * s :=
          mul_self_le_mul_self hb.le hge
        have hac : 0 < 4 * dot direction direction
            * (dot (findVec sphere.position origin) (findVec sphere.position origin)
                - sphere.radius * sphere.radius) := by positivity
        linarith
      have ht1 : (-(2 * dot direction (findVec sphere.position origin)) + s)
          / (2 * dot direction direction) < 0 :=
        div_neg_of_neg_of_pos (by linarith) (by positivity)
      rcases h with ⟨_, hT⟩ | ⟨h2, _⟩ | ⟨_, h1, _⟩
      · exact not_lt.mpr hT
      · exact absurd (lt_of_lt_of_le h2 hle) (not_lt.mpr ht1.le)
      · exact absurd h1 (not_lt.mpr ht1.le)
  refine ⟨hnot, fun st => ?_⟩
  simp only [closestStep]
  rw [if_neg (fun h => hnot h.1)]

/-- C7, at a concrete input: from the origin along `(0,0,-1)` the first
sphere of the compiled-in scene lies behind the ray. -/
theorem getSphereIntersectionT_pointing_away_witness :
    IsSqrt Real.sqrt ∧ (0 : ℝ) < 50 ∧
    (50 : ℝ) < getMagnitude Real.sqrt (findVec ⟨0, 0, 0⟩ ⟨0, 0, 240⟩) ∧
    (⟨0, 0, -1⟩ : Vec3D ℝ) ≠ ⟨0, 0, 0⟩ ∧
    dot (⟨0, 0, -1⟩ : Vec3D ℝ) (findVec ⟨0, 0, 0⟩ ⟨0, 0, 240⟩) < 0 ∧
    ¬ 0 < getSphereIntersectionT Real.sqrt ⟨0, 0, 0⟩ ⟨0, 0, -1⟩
      ⟨⟨0, 0, 240⟩, 50, Material.DIFFUSE, ⟨1, 0, 0⟩⟩ ∧
    ∀ st : ℝ × Option (Sphere ℝ),
      closestStep Real.sqrt ⟨0, 0, 0⟩ ⟨0, 0, -1⟩ st
        ⟨⟨0, 0, 240⟩, 50, Material.DIFFUSE, ⟨1, 0, 0⟩⟩ = st :=
  have hdist : (50 : ℝ) < getMagnitude Real.sqrt (findVec ⟨0, 0, 0⟩ ⟨0, 0, 240⟩) := by
    have h : getMagnitude Real.sqrt (findVec (⟨0, 0, 0⟩ : Vec3D ℝ) ⟨0, 0, 240⟩) = 240 := by
      simp only [getMagnitude, findVec]
      exact isSqrt_real.eq_of_mul_self (by norm_num) (by norm_num)
    rw [h]; norm_num
  have hdir : (⟨0, 0, -1⟩ : Vec3D ℝ) ≠ ⟨0, 0, 0⟩ := by simp
  have haway : dot (⟨0, 0, -1⟩ : Vec3D ℝ) (findVec ⟨0, 0, 0⟩ ⟨0, 0, 240⟩) < 0 := by
    simp only [dot, findVec]; norm_num
  ⟨isSqrt_real, by norm_num, hdist, hdir, haway,
    getSphereIntersectionT_pointing_away isSqrt_real ⟨0, 0, 0⟩ ⟨0, 0, -1⟩
      ⟨⟨0, 0, 240⟩, 50, Material.DIFFUSE, ⟨1, 0, 0⟩⟩ (by norm_num) hdist hdir haway⟩

/-- C8: in the compiled-in scene, `getSceneIntersection` with origin
`(0,0,0)` and direction `(0,0,1)` reports a hit on the first sphere, with
position `(0,0,190)`, normal `(0,0,-1)` and colour `(1,0,0)`, and the second
sphere yields no intersection for this ray (the result is `-1`). -/
theorem compiled_scene_axis_ray_hits_first_sphere {sqrt : F → F} (hsqrt : IsSqrt sqrt)
    (output : Intersection F) :
    (spheres : List (Sphere F))
      = [⟨⟨0, 0, 240⟩, 50, Material.DIFFUSE, ⟨1, 0, 0⟩⟩,
         ⟨⟨0, -10050, 240⟩, 10000, Material.DIFFUSE, ⟨0, 1, 0⟩⟩] ∧
    (getSceneIntersection sqrt spheres output ⟨0, 0, 0⟩ ⟨0, 0, 1⟩).isHit = true ∧
    (getSceneIntersection sqrt spheres output ⟨0, 0, 0⟩ ⟨0, 0, 1⟩).position = ⟨0, 0, 190⟩ ∧
    (getSceneIntersection sqrt spheres output ⟨0, 0, 0⟩ ⟨0, 0, 1⟩).normal = ⟨0, 0, -1⟩ ∧
    (getSceneIntersection sqrt spheres output ⟨0, 0, 0⟩ ⟨0, 0, 1⟩).colour = ⟨1, 0, 0⟩ ∧
    getSphereIntersectionT sqrt ⟨0, 0, 0⟩ ⟨0, 0, 1⟩
      ⟨⟨0, -10050, 240⟩, 10000, Material.DIFFUSE, ⟨0, 1, 0⟩⟩ = -1 := by
  have hs : sqrt 2500 = 50 := hsqrt.eq_of_mul_self (by norm_num) (by norm_num)
  rw [getSceneIntersection_of_some sqrt spheres output _ _ _ _ (axis_ray_closestLoop hsqrt)]
  refine ⟨rfl, rfl, ?_, ?_, rfl, axis_ray_second_sphere sqrt⟩
  · simp [add, scale]
  · simp only [findUnitVec, getMagnitude, add, scale]
    norm_num [hs]

/-- C8 over the reals, with the library square root. -/
theorem compiled_scene_axis_ray_hits_first_sphere_witness :
    IsSqrt Real.sqrt ∧
    (getSceneIntersection Real.sqrt (spheres : List (Sphere ℝ))
        ⟨false, ⟨0, 0, 0⟩, ⟨0, 0, 0⟩, Material.MIRROR, ⟨0, 0, 0⟩⟩
        ⟨0, 0, 0⟩ ⟨0, 0, 1⟩).isHit = true ∧
    (getSceneIntersection Real.sqrt (spheres : List (Sphere ℝ))
        ⟨false, ⟨0, 0, 0⟩, ⟨0, 0, 0⟩, Material.MIRROR, ⟨0, 0, 0⟩⟩
        ⟨0, 0, 0⟩ ⟨0, 0, 1⟩).position = ⟨0, 0, 190⟩ ∧
    (getSceneIntersection Real.sqrt (spheres : List (Sphere ℝ))
        ⟨false, ⟨0, 0, 0⟩, ⟨0, 0, 0⟩, Material.MIRROR, ⟨0, 0, 0⟩⟩
        ⟨0, 0, 0⟩ ⟨0, 0, 1⟩).normal = ⟨0, 0, -1⟩ ∧
    (getSceneIntersection Real.sqrt (spheres : List (Sphere ℝ))
        ⟨false, ⟨0, 0, 0⟩, ⟨0, 0, 0⟩, Material.MIRROR, ⟨0, 0, 0⟩⟩
        ⟨0, 0, 0⟩ ⟨0, 0, 1⟩).colour = ⟨1, 0, 0⟩ :=
  have h := compiled_scene_axis_ray_hits_first_sphere isSqrt_real
    (⟨false, ⟨0, 0, 0⟩, ⟨0, 0, 0⟩, Material.MIRROR, ⟨0, 0, 0⟩⟩ : Intersection ℝ)
  ⟨isSqrt_real, h.2.1, h.2.2.1, h.2.2.2.1, h.2.2.2.2.1⟩

/-- C9: for every input colour, `convertColour` works with channel values
`blue <= 31`, `red <= 31`, `green <= 63` and packs them into disjoint fields
of a sixteen-bit word: the word is
`blue*2^8 + red*2^3 + green div 8 + (green mod 8)*2^13`, and the channels are
read back by `(word >> 8) & 31`, `(word >> 3) & 31` and
`((word & 7) << 3) | (word >> 13)`. -/
theorem convertColour_packs_disjoint_fields [FloorRing F] (colour : Colour F) :
    blueChannel colour ≤ 31 ∧ redChannel colour ≤ 31 ∧ greenChannel colour ≤ 63 ∧
    convertColour colour
      = blueChannel colour * 2 ^ 8 + redChannel colour * 2 ^ 3
        + greenChannel colour / 8 + (greenChannel colour % 8) * 2 ^ 13 ∧
    convertColour colour < 2 ^ 16 ∧
    (convertColour colour >>> 8) &&& 31 = blueChannel colour ∧
    (convertColour colour >>> 3) &&& 31 = redChannel colour ∧
    ((convertColour colour &&& 7) <<< 3) ||| (convertColour colour >>> 13)
      = greenChannel colour := by
  have hb : blueChannel colour ≤ 31 := by
    simp only [blueChannel]
    split_ifs with h
    · exact le_refl _
    · exact not_lt.mp h
  have hr : redChannel colour ≤ 31 := by
    simp only [redChannel]
    split_ifs with h
    · exact le_refl _
    · exact not_lt.mp h
  have hg : greenChannel colour ≤ 63 := by
    simp only [greenChannel]
    split_ifs with h
    · exact le_refl _
    · exact not_lt.mp h
  have hw : convertColour colour
      = blueChannel colour * 2 ^ 8 + redChannel colour * 2 ^ 3
        + greenChannel colour / 8 + (greenChannel colour % 8) * 2 ^ 13 := by
    simp only [convertColour]
    exact packWord_eq_sum hb hr hg
  obtain ⟨h1, h2, h3⟩ := unpack_sum hb hr hg _ hw
  refine ⟨hb, hr, hg, hw, ?_, h1, h2, h3⟩
  rw [hw]
  omega

/-- C10, the code at the colour `(9,0,0)`: the scaled red component is
`279`, the conversion to `uint8_t` keeps `279 - 256 = 23`, the clamp
`red > 31` is not taken, and the packed red channel is `23` where the claim
gives `min(279, 31) = 31`.  The claim's own examples `(1,1,1)` and `(2,2,2)`
both give `0xFFFF`. -/
theorem convertColour_clamp_misses_wrapped_channel [FloorRing F] :
    (0 : F) ≤ 9 ∧ ⌊(31 : F) * 9⌋.toNat = 279 ∧ min (⌊(31 : F) * 9⌋.toNat) 31 = 31 ∧
    redChannel (⟨9, 0, 0⟩ : Colour F) = 23 ∧
    convertColour (⟨9, 0, 0⟩ : Colour F) = 184 ∧
    convertColour (⟨1, 1, 1⟩ : Colour F) = 0xFFFF ∧
    convertColour (⟨2, 2, 2⟩ : Colour F) = 0xFFFF := by
  have hfloor : ⌊(31 : F) * 9⌋.toNat = 279 := by norm_num; rfl
  have hr : redChannel (⟨9, 0, 0⟩ : Colour F) = 23 := by
    simp only [redChannel, toUInt8]
    norm_num; rfl
  have hg : greenChannel (⟨9, 0, 0⟩ : Colour F) = 0 := by
    simp only [greenChannel, toUInt8]
    norm_num
  have hb : blueChannel (⟨9, 0, 0⟩ : Colour F) = 0 := by
    simp only [blueChannel, toUInt8]
    norm_num
  have h1r : redChannel (⟨1, 1, 1⟩ : Colour F) = 31 := by
    simp only [redChannel, toUInt8]
    norm_num; rfl
  have h1g : greenChannel (⟨1, 1, 1⟩ : Colour F) = 63 := by
    simp only [greenChannel, toUInt8]
    norm_num; rfl
  have h1b : blueChannel (⟨1, 1, 1⟩ : Colour F) = 31 := by
    simp only [blueChannel, toUInt8]
    norm_num; rfl
  have h2r : redChannel (⟨2, 2, 2⟩ : Colour F) = 31 := by
    simp only [redChannel, toUInt8]
    norm_num
  have h2g : greenChannel (⟨2, 2, 2⟩ : Colour F) = 63 := by
    simp only [greenChannel, toUInt8]
    norm_num
  have h2b : blueChannel (⟨2, 2, 2⟩ : Colour F) = 31 := by
    simp only [blueChannel, toUInt8]
    norm_num
  refine ⟨by norm_num, hfloor, by rw [hfloor]; decide, hr, ?_, ?_, ?_⟩
  · simp only [convertColour, hr, hg, hb]
    decide
  · simp only [convertColour, h1r, h1g, h1b]
    decide
  · simp only [convertColour, h2r, h2g, h2b]
    decide

/-- C11 as stated fails in binary64.  For `x = 36.06565504071735` and
`y = 36.06565504071408` with focal length `240` in the compiled-in scene, the
primary ray hits at `(34.020690871992244, 34.02069087198915,
226.3917236512152)`, which is not `lightPos`, and `portionOfLight` is
`1.0000000000000002`, which is above `1`. -/
theorem portionOfLight_binary64_counterexample :
    Binary64.round (3606565504071735 / 100000000000000) = some (5075789706320235 / 140737488355328) ∧
    Binary64.round (3606565504071408 / 100000000000000) = some (2537894853159887 / 70368744177664) ∧
    (Binary64.firstIntersection spheres ⟨false, ⟨0, 0, 0⟩, ⟨0, 0, 0⟩, Material.MIRROR, ⟨0, 0, 0⟩⟩ 240 (5075789706320235 / 140737488355328) (2537894853159887 / 70368744177664)).map
        (fun r => (r.isHit, r.position.i, r.position.j, r.position.k))
      = some (true, 2393993292718611 / 70368744177664,
          4787986585436787 / 140737488355328, 7965450642776383 / 35184372088832) ∧
    (2393993292718611 / 70368744177664 : ℚ) ≠ 100 ∧
    Binary64.portionOfLight spheres ⟨false, ⟨0, 0, 0⟩, ⟨0, 0, 0⟩, Material.MIRROR, ⟨0, 0, 0⟩⟩ 240 (5075789706320235 / 140737488355328) (2537894853159887 / 70368744177664)
      = some (4503599627370497 / 4503599627370496) ∧
    (1 : ℚ) < 4503599627370497 / 4503599627370496 := by
  decide!

/-- C11, amended: in exact arithmetic, for every hit that `getPixelColour`
finds on its primary ray, in a scene whose spheres have positive radius, with the hit position different
from `lightPos`, the diffuse term
`portionOfLight = (dot(normal, shadowRay) + 1)/2` lies in the closed interval
from `0` to `1`. -/
theorem portionOfLight_in_unit_interval {sqrt : F → F} (hsqrt : IsSqrt sqrt)
    (scene : List (Sphere F)) (out1 : Intersection F) (focalLength x y : F)
    (hrad : ∀ s ∈ scene, 0 < s.radius)
    (hhit : (firstIntersection sqrt scene out1 focalLength x y).isHit = true)
    (hne : (firstIntersection sqrt scene out1 focalLength x y).position ≠ lightPos) :
    portionOfLight sqrt scene out1 focalLength x y
      = (dot (firstIntersection sqrt scene out1 focalLength x y).normal
          (findUnitVec sqrt (firstIntersection sqrt scene out1 focalLength x y).position
            lightPos) + 1) / 2 ∧
    0 ≤ portionOfLight sqrt scene out1 focalLength x y ∧
    portionOfLight sqrt scene out1 focalLength x y ≤ 1 := by
  obtain ⟨_, hunit, _⟩ := hit_spec hsqrt scene out1 _ _ hrad hhit
  have hL := (findUnitVec_spec hsqrt _ _ (findVec_dot_pos_of_ne hne)).1
  obtain ⟨hlo, hhi⟩ :
      -1 ≤ dot (firstIntersection sqrt scene out1 focalLength x y).normal
          (findUnitVec sqrt (firstIntersection sqrt scene out1 focalLength x y).position
            lightPos) ∧
      dot (firstIntersection sqrt scene out1 focalLength x y).normal
          (findUnitVec sqrt (firstIntersection sqrt scene out1 focalLength x y).position
            lightPos) ≤ 1 :=
    dot_bounds_of_unit (dot_self_of_magnitude_one hsqrt hunit)
      (dot_self_of_magnitude_one hsqrt hL)
  refine ⟨rfl, ?_, ?_⟩
  · simp only [portionOfLight, shadowRay]
    exact div_nonneg (by linarith) (by norm_num)
  · simp only [portionOfLight, shadowRay]
    rw [div_le_one (by norm_num)]
    linarith

/-- C11, at the centre pixel of the compiled-in scene, over the reals. -/
theorem portionOfLight_in_unit_interval_witness :
    IsSqrt Real.sqrt ∧ (∀ s ∈ (spheres : List (Sphere ℝ)), 0 < s.radius) ∧
    (firstIntersection Real.sqrt spheres
      ⟨false, ⟨0, 0, 0⟩, ⟨0, 0, 0⟩, Material.MIRROR, ⟨0, 0, 0⟩⟩ 240 0 0).isHit = true ∧
    (firstIntersection Real.sqrt spheres
      ⟨false, ⟨0, 0, 0⟩, ⟨0, 0, 0⟩, Material.MIRROR, ⟨0, 0, 0⟩⟩ 240 0 0).position
        ≠ lightPos ∧
    0 ≤ portionOfLight Real.sqrt spheres
      ⟨false, ⟨0, 0, 0⟩, ⟨0, 0, 0⟩, Material.MIRROR, ⟨0, 0, 0⟩⟩ 240 0 0 ∧
    portionOfLight Real.sqrt spheres
      ⟨false, ⟨0, 0, 0⟩, ⟨0, 0, 0⟩, Material.MIRROR, ⟨0, 0, 0⟩⟩ 240 0 0 ≤ 1 :=
  have hhit : (firstIntersection Real.sqrt spheres
      ⟨false, ⟨0, 0, 0⟩, ⟨0, 0, 0⟩, Material.MIRROR, ⟨0, 0, 0⟩⟩ 240 0 0).isHit = true := by
    rw [centre_pixel_firstIntersection isSqrt_real]
  have hne : (firstIntersection Real.sqrt spheres
      ⟨false, ⟨0, 0, 0⟩, ⟨0, 0, 0⟩, Material.MIRROR, ⟨0, 0, 0⟩⟩ 240 0 0).position
        ≠ lightPos := by
    rw [centre_pixel_firstIntersection isSqrt_real]
    simp [lightPos]
  ⟨isSqrt_real, spheres_radius_pos, hhit, hne,
    (portionOfLight_in_unit_interval isSqrt_real spheres _ 240 0 0
      spheres_radius_pos hhit hne).2⟩

/-- C12: when the primary ray hits, in a scene whose spheres have positive
radius, the colour of the hit is the colour of the sphere selected by the
loop; `L = shadowRay` is the difference `lightPos - position` divided by its
length; the diffuse term is `(normal.L + 1)/2`; the shadow query starts at
`position + 0.0001*normal` and runs along `L`.  When the shadow query reports
a hit, each component of the result of `getPixelColour` is the component of
the base colour times the diffuse term times `0.8`; when it reports none, it
is the component of the base colour times the diffuse term, and the result is
the base colour itself when the normal equals `L`. -/
theorem getPixelColour_of_hit {sqrt : F → F} (hsqrt : IsSqrt sqrt)
    (scene : List (Sphere F)) (out1 out2 : Intersection F) (focalLength x y : F)
    (hrad : ∀ s ∈ scene, 0 < s.radius)
    (hhit : (firstIntersection sqrt scene out1 focalLength x y).isHit = true) :
    (∃ s ∈ scene,
      (closestLoop sqrt scene ⟨0, 0, 0⟩ ⟨x, y, focalLength⟩).2 = some s ∧
      (firstIntersection sqrt scene out1 focalLength x y).colour = s.colour) ∧
    (shadowRay sqrt scene out1 focalLength x y)
      = ⟨(100 - (firstIntersection sqrt scene out1 focalLength x y).position.i)
            / sqrt ((100 - (firstIntersection sqrt scene out1 focalLength x y).position.i)
                * (100 - (firstIntersection sqrt scene out1 focalLength x y).position.i)
              + (100 - (firstIntersection sqrt scene out1 focalLength x y).position.j)
                * (100 - (firstIntersection sqrt scene out1 focalLength x y).position.j)
              + (200 - (firstIntersection sqrt scene out1 focalLength x y).position.k)
                * (200 - (firstIntersection sqrt scene out1 focalLength x y).position.k)),
          (100 - (firstIntersection sqrt scene out1 focalLength x y).position.j)
            / sqrt ((100 - (firstIntersection sqrt scene out1 focalLength x y).position.i)
                * (100 - (firstIntersection sqrt scene out1 focalLength x y).position.i)
              + (100 - (firstIntersection sqrt scene out1 focalLength x y).position.j)
                * (100 - (firstIntersection sqrt scene out1 focalLength x y).position.j)
              + (200 - (firstIntersection sqrt scene out1 focalLength x y).position.k)
                * (200 - (firstIntersection sqrt scene out1 focalLength x y).position.k)),
          (200 - (firstIntersection sqrt scene out1 focalLength x y).position.k)
            / sqrt ((100 - (firstIntersection sqrt scene out1 focalLength x y).position.i)
                * (100 - (firstIntersection sqrt scene out1 focalLength x y).position.i)
              + (100 - (firstIntersection sqrt scene out1 focalLength x y).position.j)
                * (100 - (firstIntersection sqrt scene out1 focalLength x y).position.j)
              + (200 - (firstIntersection sqrt scene out1 focalLength x y).position.k)
                * (200 - (firstIntersection sqrt scene out1 focalLength x y).position.k))⟩ ∧
    portionOfLight sqrt scene out1 focalLength x y
      = ((firstIntersection sqrt scene out1 focalLength x y).normal.i * (shadowRay sqrt scene out1 focalLength x y).i
          + (firstIntersection sqrt scene out1 focalLength x y).normal.j * (shadowRay sqrt scene out1 focalLength x y).j
          + (firstIntersection sqrt scene out1 focalLength x y).normal.k * (shadowRay sqrt scene out1 focalLength x y).k
          + 1) / 2 ∧
    (nextIntersection sqrt scene out1 out2 focalLength x y)
      = getSceneIntersection sqrt scene out2
          ⟨(firstIntersection sqrt scene out1 focalLength x y).position.i
              + (firstIntersection sqrt scene out1 focalLength x y).normal.i * (1 / 10000),
            (firstIntersection sqrt scene out1 focalLength x y).position.j
              + (firstIntersection sqrt scene out1 focalLength x y).normal.j * (1 / 10000),
            (firstIntersection sqrt scene out1 focalLength x y).position.k
              + (firstIntersection sqrt scene out1 focalLength x y).normal.k * (1 / 10000)⟩
          (shadowRay sqrt scene out1 focalLength x y) ∧
    ((nextIntersection sqrt scene out1 out2 focalLength x y).isHit = true →
      (getPixelColour sqrt scene out1 out2 focalLength x y).red
        = (firstIntersection sqrt scene out1 focalLength x y).colour.red
          * (portionOfLight sqrt scene out1 focalLength x y) * (8 / 10) ∧
      (getPixelColour sqrt scene out1 out2 focalLength x y).green
        = (firstIntersection sqrt scene out1 focalLength x y).colour.green
          * (portionOfLight sqrt scene out1 focalLength x y) * (8 / 10) ∧
      (getPixelColour sqrt scene out1 out2 focalLength x y).blue
        = (firstIntersection sqrt scene out1 focalLength x y).colour.blue
          * (portionOfLight sqrt scene out1 focalLength x y) * (8 / 10)) ∧
    ((nextIntersection sqrt scene out1 out2 focalLength x y).isHit = false →
      (getPixelColour sqrt scene out1 out2 focalLength x y).red
        = (firstIntersection sqrt scene out1 focalLength x y).colour.red
          * (portionOfLight sqrt scene out1 focalLength x y) ∧
      (getPixelColour sqrt scene out1 out2 focalLength x y).green
        = (firstIntersection sqrt scene out1 focalLength x y).colour.green
          * (portionOfLight sqrt scene out1 focalLength x y) ∧
      (getPixelColour sqrt scene out1 out2 focalLength x y).blue
        = (firstIntersection sqrt scene out1 focalLength x y).colour.blue
          * (portionOfLight sqrt scene out1 focalLength x y)) ∧
    ((nextIntersection sqrt scene out1 out2 focalLength x y).isHit = false →
      (firstIntersection sqrt scene out1 focalLength x y).normal
        = (shadowRay sqrt scene out1 focalLength x y) →
      (getPixelColour sqrt scene out1 out2 focalLength x y)
        = (firstIntersection sqrt scene out1 focalLength x y).colour) := by
  obtain ⟨_, hunit, s, hs, hsel, _, _, hcol⟩ := hit_spec hsqrt scene out1 _ _ hrad hhit
  have hnn := dot_self_of_magnitude_one hsqrt hunit
  refine ⟨⟨s, hs, hsel, hcol⟩, rfl, rfl, rfl, fun h => ?_, fun h => ?_, fun h hnL => ?_⟩
  · rw [getPixelColour_eq, if_pos hhit, if_pos h]
    exact ⟨rfl, rfl, rfl⟩
  · rw [getPixelColour_eq, if_pos hhit, if_neg (by rw [h]; simp)]
    exact ⟨rfl, rfl, rfl⟩
  · have hp : portionOfLight sqrt scene out1 focalLength x y = 1 := by
      simp only [portionOfLight]
      rw [← hnL]
      have h1 : dot (firstIntersection sqrt scene out1 focalLength x y).normal
          (firstIntersection sqrt scene out1 focalLength x y).normal = 1 := hnn
      rw [h1]
      norm_num
    rw [getPixelColour_eq, if_pos hhit, if_neg (by rw [h]; simp), hp]
    simp only [scaleColour, mul_one]

/-- C12, at the centre pixel of the compiled-in scene, over the reals: the
primary ray hits the first sphere at `(0,0,190)`, the shadow query reports a
hit, and each component of the result is the component of the base colour
`(1,0,0)` times the diffuse term times `0.8`. -/
theorem getPixelColour_of_hit_witness :
    IsSqrt Real.sqrt ∧ (∀ s ∈ (spheres : List (Sphere ℝ)), 0 < s.radius) ∧
    (firstIntersection Real.sqrt spheres
      ⟨false, ⟨0, 0, 0⟩, ⟨0, 0, 0⟩, Material.MIRROR, ⟨0, 0, 0⟩⟩ 240 0 0).isHit = true ∧
    (firstIntersection Real.sqrt spheres
      ⟨false, ⟨0, 0, 0⟩, ⟨0, 0, 0⟩, Material.MIRROR, ⟨0, 0, 0⟩⟩ 240 0 0).colour = ⟨1, 0, 0⟩ ∧
    (nextIntersection Real.sqrt spheres
      ⟨false, ⟨0, 0, 0⟩, ⟨0, 0, 0⟩, Material.MIRROR, ⟨0, 0, 0⟩⟩
      ⟨false, ⟨0, 0, 0⟩, ⟨0, 0, 0⟩, Material.MIRROR, ⟨0, 0, 0⟩⟩ 240 0 0).isHit = true ∧
    (getPixelColour Real.sqrt spheres
      ⟨false, ⟨0, 0, 0⟩, ⟨0, 0, 0⟩, Material.MIRROR, ⟨0, 0, 0⟩⟩
      ⟨false, ⟨0, 0, 0⟩, ⟨0, 0, 0⟩, Material.MIRROR, ⟨0, 0, 0⟩⟩ 240 0 0).red
      = (firstIntersection Real.sqrt spheres
      ⟨false, ⟨0, 0, 0⟩, ⟨0, 0, 0⟩, Material.MIRROR, ⟨0, 0, 0⟩⟩ 240 0 0).colour.red
        * (portionOfLight Real.sqrt spheres
      ⟨false, ⟨0, 0, 0⟩, ⟨0, 0, 0⟩, Material.MIRROR, ⟨0, 0, 0⟩⟩ 240 0 0) * (8 / 10) ∧
    (getPixelColour Real.sqrt spheres
      ⟨false, ⟨0, 0, 0⟩, ⟨0, 0, 0⟩, Material.MIRROR, ⟨0, 0, 0⟩⟩
      ⟨false, ⟨0, 0, 0⟩, ⟨0, 0, 0⟩, Material.MIRROR, ⟨0, 0, 0⟩⟩ 240 0 0).green
      = (firstIntersection Real.sqrt spheres
      ⟨false, ⟨0, 0, 0⟩, ⟨0, 0, 0⟩, Material.MIRROR, ⟨0, 0, 0⟩⟩ 240 0 0).colour.green
        * (portionOfLight Real.sqrt spheres
      ⟨false, ⟨0, 0, 0⟩, ⟨0, 0, 0⟩, Material.MIRROR, ⟨0, 0, 0⟩⟩ 240 0 0) * (8 / 10) ∧
    (getPixelColour Real.sqrt spheres
      ⟨false, ⟨0, 0, 0⟩, ⟨0, 0, 0⟩, Material.MIRROR, ⟨0, 0, 0⟩⟩
      ⟨false, ⟨0, 0, 0⟩, ⟨0, 0, 0⟩, Material.MIRROR, ⟨0, 0, 0⟩⟩ 240 0 0).blue
      = (firstIntersection Real.sqrt spheres
      ⟨false, ⟨0, 0, 0⟩, ⟨0, 0, 0⟩, Material.MIRROR, ⟨0, 0, 0⟩⟩ 240 0 0).colour.blue
        * (portionOfLight Real.sqrt spheres
      ⟨false, ⟨0, 0, 0⟩, ⟨0, 0, 0⟩, Material.MIRROR, ⟨0, 0, 0⟩⟩ 240 0 0) * (8 / 10) :=
  have hhit : (firstIntersection Real.sqrt spheres
      ⟨false, ⟨0, 0, 0⟩, ⟨0, 0, 0⟩, Material.MIRROR, ⟨0, 0, 0⟩⟩ 240 0 0).isHit = true := by
    rw [centre_pixel_firstIntersection isSqrt_real]
  have hcol : (firstIntersection Real.sqrt spheres
      ⟨false, ⟨0, 0, 0⟩, ⟨0, 0, 0⟩, Material.MIRROR, ⟨0, 0, 0⟩⟩ 240 0 0).colour = ⟨1, 0, 0⟩ := by
    rw [centre_pixel_firstIntersection isSqrt_real]
  have hnext : (nextIntersection Real.sqrt spheres
      ⟨false, ⟨0, 0, 0⟩, ⟨0, 0, 0⟩, Material.MIRROR, ⟨0, 0, 0⟩⟩
      ⟨false, ⟨0, 0, 0⟩, ⟨0, 0, 0⟩, Material.MIRROR, ⟨0, 0, 0⟩⟩ 240 0 0).isHit = true :=
    centre_pixel_nextIntersection_hit isSqrt_real _ _
  ⟨isSqrt_real, spheres_radius_pos, hhit, hcol, hnext,
    (getPixelColour_of_hit isSqrt_real spheres _ _ 240 0 0
      spheres_radius_pos hhit).2.2.2.2.1 hnext⟩

/-- C13: when `getSceneIntersection` reports no hit on the primary ray,
`getPixelColour` returns the colour `(0,0,0)`, and `convertColour` of
`(0,0,0)` is the word `0x0000`. -/
theorem getPixelColour_of_miss [FloorRing F] (sqrt : F → F) (scene : List (Sphere F))
    (out1 out2 : Intersection F) (focalLength x y : F)
    (hmiss : (getSceneIntersection sqrt scene out1 ⟨0, 0, 0⟩
      (primaryRay sqrt focalLength x y)).isHit = false) :
    getPixelColour sqrt scene out1 out2 focalLength x y = ⟨0, 0, 0⟩ ∧
    convertColour (⟨0, 0, 0⟩ : Colour F) = 0x0000 ∧
    convertColour (getPixelColour sqrt scene out1 out2 focalLength x y) = 0x0000 := by
  have hpix : getPixelColour sqrt scene out1 out2 focalLength x y = ⟨0, 0, 0⟩ := by
    have hm : (firstIntersection sqrt scene out1 focalLength x y).isHit = false := hmiss
    rw [getPixelColour_eq, if_neg (by rw [hm]; simp)]
  refine ⟨hpix, convertColour_black, ?_⟩
  rw [hpix]
  exact convertColour_black

/-- C13, at the pixel `i = 0`, `j = 114` of the compiled-in scene, over the
reals. -/
theorem getPixelColour_of_miss_witness :
    (getSceneIntersection Real.sqrt (spheres : List (Sphere ℝ))
      ⟨false, ⟨0, 0, 0⟩, ⟨0, 0, 0⟩, Material.MIRROR, ⟨0, 0, 0⟩⟩ ⟨0, 0, 0⟩
      (primaryRay Real.sqrt 240 (-120) 6)).isHit = false ∧
    getPixelColour Real.sqrt (spheres : List (Sphere ℝ))
      ⟨false, ⟨0, 0, 0⟩, ⟨0, 0, 0⟩, Material.MIRROR, ⟨0, 0, 0⟩⟩
      ⟨false, ⟨0, 0, 0⟩, ⟨0, 0, 0⟩, Material.MIRROR, ⟨0, 0, 0⟩⟩ 240 (-120) 6 = ⟨0, 0, 0⟩ ∧
    convertColour (⟨0, 0, 0⟩ : Colour ℝ) = 0x0000 ∧
    convertColour (getPixelColour Real.sqrt (spheres : List (Sphere ℝ))
      ⟨false, ⟨0, 0, 0⟩, ⟨0, 0, 0⟩, Material.MIRROR, ⟨0, 0, 0⟩⟩
      ⟨false, ⟨0, 0, 0⟩, ⟨0, 0, 0⟩, Material.MIRROR, ⟨0, 0, 0⟩⟩ 240 (-120) 6) = 0x0000 :=
  have hmiss : (getSceneIntersection Real.sqrt (spheres : List (Sphere ℝ))
      ⟨false, ⟨0, 0, 0⟩, ⟨0, 0, 0⟩, Material.MIRROR, ⟨0, 0, 0⟩⟩ ⟨0, 0, 0⟩
      (primaryRay Real.sqrt 240 (-120) 6)).isHit = false :=
    edge_pixel_firstIntersection_miss Real.sqrt _
  ⟨hmiss, getPixelColour_of_miss Real.sqrt spheres _ _ 240 (-120) 6 hmiss⟩

/-- C16: `drawPoint(x, y, colour)` leaves the whole framebuffer unchanged
when `x < 0`, `y < 0`, `x >= 240` or `y >= 240`; otherwise the index
`y*240 + x` lies from `0` up to but not including `57600`, the cell at that
index becomes `colour`, and every other cell is unchanged. -/
theorem drawPoint_frame (screenBuffer : ℕ → ℕ) (x y : ℤ) (colour : ℕ) :
    ((x < 0 ∨ y < 0 ∨ x ≥ 240 ∨ y ≥ 240) →
      drawPoint screenBuffer x y colour = screenBuffer) ∧
    (¬ (x < 0 ∨ y < 0 ∨ x ≥ 240 ∨ y ≥ 240) →
      0 ≤ y * 240 + x ∧ y * 240 + x < 57600 ∧ (y * 240 + x).toNat < 57600 ∧
      drawPoint screenBuffer x y colour (y * 240 + x).toNat = colour ∧
      ∀ cell : ℕ, cell ≠ (y * 240 + x).toNat →
        drawPoint screenBuffer x y colour cell = screenBuffer cell) := by
  constructor
  · intro h
    unfold drawPoint
    rw [if_pos h]
  · intro h
    have hd := drawPoint_inside screenBuffer x y colour (by omega) (by omega) (by omega)
      (by omega)
    refine ⟨by omega, by omega, by omega, ?_, ?_⟩
    · rw [hd]
      simp
    · intro cell hcell
      rw [hd]
      simp only
      rw [if_neg hcell]

/-- C14: the two render loops partition the image.  The loop of `main` is
the sequence of the calls `drawPoint(i, j, ...)` for the pairs of
`loopPixels 0 120`, rows `0` to `119`, and the loop of `core1Code` the
sequence of the calls for the pairs of `loopPixels 120 240`, rows `120` to
`239`.  For every pixel `(col, row)` of the image exactly one of the two
sequences holds a call on it, exactly once, and every call passes the bounds
test of `drawPoint`.  The cells with the index `j*240 + i` of a call of the
loop of `main` are exactly those below `28800`, and these are exactly the
cells that the loop overwrites, its final content there not depending on the
initial buffer; for `core1Code` they are exactly the cells from `28800` up to
`57599`.  `core1Code` leaves every other cell unchanged, in particular rows
`0` to `119`, and the loop of `main` leaves every cell from `28800` on
unchanged. -/
theorem render_loops_partition [FloorRing F] (sqrt : F → F) (scene : List (Sphere F))
    (out1 out2 : Intersection F) (screenBuffer : ℕ → ℕ) :
    mainRenderLoop sqrt scene out1 out2 screenBuffer
      = (loopPixels 0 120).foldl
        (fun buf p => drawPoint buf p.1 p.2
          (convertColour (getPixelColour sqrt scene out1 out2 240
            ((p.1 - 120 : ℤ) : F) ((120 - p.2 : ℤ) : F)))) screenBuffer ∧
    (core1Code sqrt scene out1 out2 screenBuffer).1
      = (loopPixels 120 240).foldl
        (fun buf p => drawPoint buf p.1 p.2
          (convertColour (getPixelColour sqrt scene out1 out2 240
            ((p.1 - 120 : ℤ) : F) ((120 - p.2 : ℤ) : F)))) screenBuffer ∧
    (∀ col row : ℤ, 0 ≤ col → col < 240 → 0 ≤ row → row < 240 →
      List.count (col, row) (loopPixels 0 120)
        + List.count (col, row) (loopPixels 120 240) = 1 ∧
      (List.count (col, row) (loopPixels 0 120) = 1 ↔ row < 120) ∧
      (List.count (col, row) (loopPixels 120 240) = 1 ↔ 120 ≤ row)) ∧
    (∀ p ∈ loopPixels 0 120 ++ loopPixels 120 240,
      ¬ (p.1 < 0 ∨ p.2 < 0 ∨ p.1 ≥ 240 ∨ p.2 ≥ 240)) ∧
    (∀ k : ℕ, (∃ p ∈ loopPixels 0 120, (p.2 * 240 + p.1).toNat = k) ↔ k < 28800) ∧
    (∀ k : ℕ, (∃ p ∈ loopPixels 120 240, (p.2 * 240 + p.1).toNat = k) ↔
      28800 ≤ k ∧ k < 57600) ∧
    (∀ k : ℕ, k < 28800 ↔
      ∀ buf buf' : ℕ → ℕ,
        mainRenderLoop sqrt scene out1 out2 buf k
          = mainRenderLoop sqrt scene out1 out2 buf' k) ∧
    (∀ k : ℕ, (28800 ≤ k ∧ k < 57600) ↔
      ∀ buf buf' : ℕ → ℕ,
        (core1Code sqrt scene out1 out2 buf).1 k
          = (core1Code sqrt scene out1 out2 buf').1 k) ∧
    (∀ k : ℕ, k < 28800 ∨ 57600 ≤ k →
      (core1Code sqrt scene out1 out2 screenBuffer).1 k = screenBuffer k) ∧
    (∀ k : ℕ, 28800 ≤ k →
      mainRenderLoop sqrt scene out1 out2 screenBuffer k = screenBuffer k) := by
  obtain ⟨hcount, hguard, hmain, hcore, _, hframe⟩ :=
    loopPixels_partition sqrt scene out1 out2 screenBuffer
  have hbody : renderPixel sqrt scene out1 out2
      = (fun buf p => drawPoint buf p.1 p.2
          (convertColour (getPixelColour sqrt scene out1 out2 240
            ((p.1 - 120 : ℤ) : F) ((120 - p.2 : ℤ) : F)))) := by
    funext buf p
    rfl
  refine ⟨?_, ?_, hcount, hguard, hmain, hcore, ?_, ?_, ?_, hframe⟩
  · simp only [mainRenderLoop]
    rw [hbody]
  · simp only [core1Code]
    rw [hbody]
  · intro k
    have h := loop_overwrites_iff sqrt scene out1 out2 0 120 (by norm_num) (by norm_num) k
    simp only [mainRenderLoop]
    rw [← h]
    omega
  · intro k
    have h := loop_overwrites_iff sqrt scene out1 out2 120 240 (by norm_num) (by norm_num) k
    simp only [core1Code]
    rw [← h]
  · intro k hk
    simp only [core1Code]
    apply foldl_renderPixel_other sqrt scene out1 out2 _ _ _
      (loopPixels_inside 120 240 (by norm_num) (by norm_num))
    intro p hp hidx
    have := (loopPixels_cells 120 240 (by norm_num) k).mp ⟨p, hp, hidx⟩
    omega

/-- C15: from any framebuffer contents, once the render loop of `main` and
the render loop of `core1Code` have both run, in either order, the cell
`j*240 + i` of every pixel `(i, j)` of the image holds
`convertColour(getPixelColour(240, i - 120, 120 - j))`; the same holds after
the pre-fill loop of `main`, a single loop nest over rows `0` to `239`
gives the same cell, and so does every interleaving of the calls of the two
loops. -/
theorem render_loops_fill_every_cell [FloorRing F] (sqrt : F → F) (scene : List (Sphere F))
    (out1 out2 : Intersection F) (screenBuffer : ℕ → ℕ) (i j : ℤ)
    (hi0 : 0 ≤ i) (hi : i < 240) (hj0 : 0 ≤ j) (hj : j < 240) :
    mainRenderLoop sqrt scene out1 out2 (core1Code sqrt scene out1 out2 screenBuffer).1
        (j * 240 + i).toNat
      = convertColour (getPixelColour sqrt scene out1 out2 240
          ((i - 120 : ℤ) : F) ((120 - j : ℤ) : F)) ∧
    (core1Code sqrt scene out1 out2 (mainRenderLoop sqrt scene out1 out2 screenBuffer)).1
        (j * 240 + i).toNat
      = convertColour (getPixelColour sqrt scene out1 out2 240
          ((i - 120 : ℤ) : F) ((120 - j : ℤ) : F)) ∧
    mainRenderLoop sqrt scene out1 out2
        (core1Code sqrt scene out1 out2 (mainPrefill screenBuffer)).1 (j * 240 + i).toNat
      = convertColour (getPixelColour sqrt scene out1 out2 240
          ((i - 120 : ℤ) : F) ((120 - j : ℤ) : F)) ∧
    (loopPixels 0 240).foldl (renderPixel sqrt scene out1 out2) screenBuffer
        (j * 240 + i).toNat
      = convertColour (getPixelColour sqrt scene out1 out2 240
          ((i - 120 : ℤ) : F) ((120 - j : ℤ) : F)) ∧
    (∀ calls : List (ℤ × ℤ), calls.Perm (loopPixels 0 120 ++ loopPixels 120 240) →
      calls.foldl (renderPixel sqrt scene out1 out2) screenBuffer (j * 240 + i).toNat
        = convertColour (getPixelColour sqrt scene out1 out2 240
            ((i - 120 : ℤ) : F) ((120 - j : ℤ) : F))) := by
  have hmainIn := loopPixels_inside 0 120 (by norm_num) (by norm_num)
  have hcoreIn := loopPixels_inside 120 240 (by norm_num) (by norm_num)
  have hboth : ∀ buf : ℕ → ℕ,
      mainRenderLoop sqrt scene out1 out2 (core1Code sqrt scene out1 out2 buf).1
          (j * 240 + i).toNat
        = convertColour (getPixelColour sqrt scene out1 out2 240
            ((i - 120 : ℤ) : F) ((120 - j : ℤ) : F)) := by
    intro buf
    simp only [mainRenderLoop, core1Code]
    by_cases hrow : j < 120
    · have hmem : (i, j) ∈ loopPixels 0 120 := by
        rw [mem_loopPixels 0 120 (by norm_num)]
        simp only
        push_cast
        omega
      exact foldl_renderPixel_written sqrt scene out1 out2 _ _ (i, j) hmainIn hmem
    · have hmem : (i, j) ∈ loopPixels 120 240 := by
        rw [mem_loopPixels 120 240 (by norm_num)]
        simp only
        push_cast
        omega
      rw [foldl_renderPixel_other sqrt scene out1 out2 _ _ _ hmainIn]
      · exact foldl_renderPixel_written sqrt scene out1 out2 _ _ (i, j) hcoreIn hmem
      · intro p hp hidx
        have := (loopPixels_cells 0 120 (by norm_num) (j * 240 + i).toNat).mp ⟨p, hp, hidx⟩
        omega
  refine ⟨hboth screenBuffer, ?_, hboth (mainPrefill screenBuffer), ?_, ?_⟩
  · simp only [mainRenderLoop, core1Code]
    by_cases hrow : j < 120
    · have hmem : (i, j) ∈ loopPixels 0 120 := by
        rw [mem_loopPixels 0 120 (by norm_num)]
        simp only
        push_cast
        omega
      rw [foldl_renderPixel_other sqrt scene out1 out2 _ _ _ hcoreIn]
      · exact foldl_renderPixel_written sqrt scene out1 out2 _ _ (i, j) hmainIn hmem
      · intro p hp hidx
        have := (loopPixels_cells 120 240 (by norm_num) (j * 240 + i).toNat).mp
          ⟨p, hp, hidx⟩
        omega
    · have hmem : (i, j) ∈ loopPixels 120 240 := by
        rw [mem_loopPixels 120 240 (by norm_num)]
        simp only
        push_cast
        omega
      exact foldl_renderPixel_written sqrt scene out1 out2 _ _ (i, j) hcoreIn hmem
  · have hmem : (i, j) ∈ loopPixels 0 240 := by
      rw [mem_loopPixels 0 240 (by norm_num)]
      simp only
      push_cast
      omega
    exact foldl_renderPixel_written sqrt scene out1 out2 _ _ (i, j)
      (loopPixels_inside 0 240 (by norm_num) (by norm_num)) hmem
  · intro calls hperm
    have hin : ∀ q ∈ calls, 0 ≤ q.1 ∧ q.1 < 240 ∧ 0 ≤ q.2 ∧ q.2 < 240 := by
      intro q hq
      rcases List.mem_append.mp (hperm.mem_iff.mp hq) with h | h
      · exact hmainIn q h
      · exact hcoreIn q h
    have hmem : (i, j) ∈ calls := by
      rw [hperm.mem_iff, List.mem_append, mem_loopPixels 0 120 (by norm_num),
        mem_loopPixels 120 240 (by norm_num)]
      simp only
      push_cast
      omega
    exact foldl_renderPixel_written sqrt scene out1 out2 _ _ (i, j) hin hmem

/-- C15, at the centre pixel `i = 120`, `j = 120` of the compiled-in scene,
over the reals, from the buffer that holds `0` in every cell. -/
theorem render_loops_fill_every_cell_witness :
    (0 : ℤ) ≤ 120 ∧ (120 : ℤ) < 240 ∧
    mainRenderLoop Real.sqrt (spheres : List (Sphere ℝ))
        ⟨false, ⟨0, 0, 0⟩, ⟨0, 0, 0⟩, Material.MIRROR, ⟨0, 0, 0⟩⟩
        ⟨false, ⟨0, 0, 0⟩, ⟨0, 0, 0⟩, Material.MIRROR, ⟨0, 0, 0⟩⟩
        (core1Code Real.sqrt (spheres : List (Sphere ℝ))
          ⟨false, ⟨0, 0, 0⟩, ⟨0, 0, 0⟩, Material.MIRROR, ⟨0, 0, 0⟩⟩
          ⟨false, ⟨0, 0, 0⟩, ⟨0, 0, 0⟩, Material.MIRROR, ⟨0, 0, 0⟩⟩ (fun _ => 0)).1
        ((120 : ℤ) * 240 + 120).toNat
      = convertColour (getPixelColour Real.sqrt (spheres : List (Sphere ℝ))
          ⟨false, ⟨0, 0, 0⟩, ⟨0, 0, 0⟩, Material.MIRROR, ⟨0, 0, 0⟩⟩
          ⟨false, ⟨0, 0, 0⟩, ⟨0, 0, 0⟩, Material.MIRROR, ⟨0, 0, 0⟩⟩ 240
          (((120 : ℤ) - 120 : ℤ) : ℝ) (((120 : ℤ) - 120 : ℤ) : ℝ)) :=
  ⟨by norm_num, by norm_num,
    (render_loops_fill_every_cell Real.sqrt spheres _ _ (fun _ => 0) 120 120
      (by norm_num) (by norm_num) (by norm_num) (by norm_num)).1⟩

/-- C17: with the compiled-in scene, light and focal length, no division
by zero occurs while a pixel is shaded.  For every `x` and `y`, so for every
pixel of the grid: the primary direction `(x, y, 240)` is not zero and its
coefficient `a` and the magnitude that `normalised` divides by are positive;
on a primary hit the position differs from the centre of the hit sphere and
from `lightPos`, both magnitudes that
`findUnitVec` divides by are positive, the shadow direction is not zero and
its `a` is positive; and on a shadow hit the position again differs from the
centre of the hit sphere and from `lightPos`, with a positive magnitude. -/
theorem shading_divides_by_nonzero {sqrt : F → F} (hsqrt : IsSqrt sqrt)
    (out1 out2 : Intersection F) (x y : F) :
    primaryRay sqrt 240 x y ≠ ⟨0, 0, 0⟩ ∧
    0 < dot (primaryRay sqrt 240 x y) (primaryRay sqrt 240 x y) ∧
    0 < getMagnitude sqrt (⟨x, y, 240⟩ : Vec3D F) ∧
    ((firstIntersection sqrt spheres out1 240 x y).isHit = true →
      (firstIntersection sqrt spheres out1 240 x y).position ≠ lightPos ∧
      0 < getMagnitude sqrt
        (findVec (firstIntersection sqrt spheres out1 240 x y).position lightPos) ∧
      (∃ s ∈ (spheres : List (Sphere F)),
        (closestLoop sqrt spheres ⟨0, 0, 0⟩ (primaryRay sqrt 240 x y)).2 = some s ∧
        (firstIntersection sqrt spheres out1 240 x y).position ≠ s.position ∧
        0 < getMagnitude sqrt
          (findVec s.position (firstIntersection sqrt spheres out1 240 x y).position)) ∧
      shadowRay sqrt spheres out1 240 x y ≠ ⟨0, 0, 0⟩ ∧
      0 < dot (shadowRay sqrt spheres out1 240 x y) (shadowRay sqrt spheres out1 240 x y) ∧
      ((nextIntersection sqrt spheres out1 out2 240 x y).isHit = true →
        (nextIntersection sqrt spheres out1 out2 240 x y).position ≠ lightPos ∧
        ∃ s ∈ (spheres : List (Sphere F)),
          (closestLoop sqrt spheres
            (add (firstIntersection sqrt spheres out1 240 x y).position
              (scale (firstIntersection sqrt spheres out1 240 x y).normal ACCURACY))
            (shadowRay sqrt spheres out1 240 x y)).2 = some s ∧
          (nextIntersection sqrt spheres out1 out2 240 x y).position ≠ s.position ∧
          0 < getMagnitude sqrt
            (findVec s.position
              (nextIntersection sqrt spheres out1 out2 240 x y).position))) := by
  have hray : primaryRay sqrt 240 x y ≠ ⟨0, 0, 0⟩ := by
    rw [primaryRay_eq]
    intro h
    simp only [Vec3D.mk.injEq] at h
    norm_num at h
  have hmag0 : 0 < getMagnitude sqrt (⟨x, y, 240⟩ : Vec3D F) := by
    have h := getMagnitude_findVec_pos hsqrt ⟨0, 0, 0⟩ ⟨x, y, 240⟩
      (findVec_dot_pos_of_ne (by
        intro h
        simp only [Vec3D.mk.injEq] at h
        norm_num at h))
    simpa [findVec] using h
  refine ⟨hray, dot_self_pos hray, hmag0, fun hhit => ?_⟩
  obtain ⟨_, hne, hmag, s, hs, hsel, hnc, hmagc⟩ :=
    compiled_hit_divisors hsqrt out1 ⟨0, 0, 0⟩ (primaryRay sqrt 240 x y) hhit
  have hunit : getMagnitude sqrt (shadowRay sqrt spheres out1 240 x y) = 1 :=
    (findUnitVec_spec hsqrt _ _ (findVec_dot_pos_of_ne hne)).1
  have hdd := dot_self_of_magnitude_one hsqrt hunit
  have hsne : shadowRay sqrt spheres out1 240 x y ≠ ⟨0, 0, 0⟩ := by
    intro h
    rw [h] at hdd
    simp [dot] at hdd
  refine ⟨hne, hmag, ⟨s, hs, hsel, hnc, hmagc⟩, hsne, by rw [hdd]; exact one_pos,
    fun hnext => ?_⟩
  obtain ⟨_, hne2, _, s2, hs2, hsel2, hnc2, hmagc2⟩ :=
    compiled_hit_divisors hsqrt out2
      (add (firstIntersection sqrt spheres out1 240 x y).position
        (scale (firstIntersection sqrt spheres out1 240 x y).normal ACCURACY))
      (shadowRay sqrt spheres out1 240 x y) hnext
  exact ⟨hne2, s2, hs2, hsel2, hnc2, hmagc2⟩

/-- C17, at the centre pixel, over the reals: the primary ray hits and the
magnitude that the shadow direction is divided by is positive. -/
theorem shading_divides_by_nonzero_witness :
    IsSqrt Real.sqrt ∧
    primaryRay Real.sqrt (240 : ℝ) 0 0 ≠ ⟨0, 0, 0⟩ ∧
    (firstIntersection Real.sqrt spheres
      ⟨false, ⟨0, 0, 0⟩, ⟨0, 0, 0⟩, Material.MIRROR, ⟨0, 0, 0⟩⟩ 240 0 0).isHit = true ∧
    0 < getMagnitude Real.sqrt
      (findVec (firstIntersection Real.sqrt spheres
        ⟨false, ⟨0, 0, 0⟩, ⟨0, 0, 0⟩, Material.MIRROR, ⟨0, 0, 0⟩⟩ 240 0 0).position
        lightPos) :=
  have h := shading_divides_by_nonzero isSqrt_real
    (⟨false, ⟨0, 0, 0⟩, ⟨0, 0, 0⟩, Material.MIRROR, ⟨0, 0, 0⟩⟩ : Intersection ℝ)
    ⟨false, ⟨0, 0, 0⟩, ⟨0, 0, 0⟩, Material.MIRROR, ⟨0, 0, 0⟩⟩ 0 0
  have hhit : (firstIntersection Real.sqrt spheres
      ⟨false, ⟨0, 0, 0⟩, ⟨0, 0, 0⟩, Material.MIRROR, ⟨0, 0, 0⟩⟩ 240 0 0).isHit = true := by
    rw [centre_pixel_firstIntersection isSqrt_real]
  ⟨isSqrt_real, h.1, hhit, (h.2.2.2 hhit).2.1⟩

/-- C19: a surface point that faces the light is not shadowed by its own
sphere.  For a sphere with centre `c` and radius `r > 0`, a point `p` of its
surface, `n = (p - c)/r` and a unit vector `L` with `dot(n, L) >= 0`,
`n` is the normal `findUnitVec(c, p)` of the code and
`getSphereIntersectionT(p + 0.0001*n, L, sphere)` is not positive. -/
theorem no_self_shadow_when_facing_light {sqrt : F → F} (hsqrt : IsSqrt sqrt)
    (sphere : Sphere F) (p n L : Vec3D F)
    (hr : 0 < sphere.radius)
    (hp : dot (findVec sphere.position p) (findVec sphere.position p)
      = sphere.radius * sphere.radius)
    (hn : n = ⟨(p.i - sphere.position.i) / sphere.radius,
      (p.j - sphere.position.j) / sphere.radius,
      (p.k - sphere.position.k) / sphere.radius⟩)
    (hL : getMagnitude sqrt L = 1) (hnL : 0 ≤ dot n L) :
    findUnitVec sqrt sphere.position p = n ∧
    ¬ 0 < getSphereIntersectionT sqrt (add p (scale n ACCURACY)) L sphere := by
  have hrne : sphere.radius ≠ 0 := hr.ne'
  constructor
  · have hm : getMagnitude sqrt (findVec sphere.position p) = sphere.radius := by
      have h1 : getMagnitude sqrt (findVec sphere.position p)
          = sqrt (dot (findVec sphere.position p) (findVec sphere.position p)) := rfl
      rw [h1, hp]
      exact hsqrt.eq_of_mul_self hr.le rfl
    have hm2 : getMagnitude sqrt ⟨p.i - sphere.position.i, p.j - sphere.position.j,
        p.k - sphere.position.k⟩ = sphere.radius := hm
    rw [hn]
    simp only [findUnitVec, hm2]
  · have hLL := dot_self_of_magnitude_one hsqrt hL
    have hfac : (0 : F) < 1 + ACCURACY / sphere.radius := by
      have : (0 : F) < ACCURACY / sphere.radius := div_pos (by norm_num [ACCURACY]) hr
      linarith
    have hco : findVec sphere.position (add p (scale n ACCURACY))
        = scale (findVec sphere.position p) (1 + ACCURACY / sphere.radius) := by
      rw [hn]
      simp only [findVec, add, scale, Vec3D.mk.injEq]
      refine ⟨?_, ?_, ?_⟩ <;> (field_simp; ring)
    have hdotn : dot L (findVec sphere.position p) = sphere.radius * dot n L := by
      rw [hn]
      simp only [dot, findVec]
      field_simp
      ring
    apply not_pos_of_outside_away hsqrt _ _ _ (by rw [hLL]; exact one_pos)
    · rw [hco]
      have : dot L (scale (findVec sphere.position p) (1 + ACCURACY / sphere.radius))
          = (1 + ACCURACY / sphere.radius) * dot L (findVec sphere.position p) := by
        simp only [dot, scale]; ring
      rw [this, hdotn]
      exact mul_nonneg hfac.le (mul_nonneg hr.le hnL)
    · rw [hco]
      have : dot (scale (findVec sphere.position p) (1 + ACCURACY / sphere.radius))
            (scale (findVec sphere.position p) (1 + ACCURACY / sphere.radius))
          = (1 + ACCURACY / sphere.radius) * (1 + ACCURACY / sphere.radius)
            * dot (findVec sphere.position p) (findVec sphere.position p) := by
        simp only [dot, scale]; ring
      rw [this, hp]
      have hrr : 0 < sphere.radius * sphere.radius := mul_pos hr hr
      have hq : (0 : F) < ACCURACY / sphere.radius :=
        div_pos (by norm_num [ACCURACY]) hr
      have h1 : 1 < (1 + ACCURACY / sphere.radius) * (1 + ACCURACY / sphere.radius) := by
        nlinarith
      exact lt_mul_of_one_lt_left hrr h1

/-- C19, on the first sphere of the compiled-in scene at its point
`(0,0,190)` with normal `(0,0,-1)`, toward `L = (0,0,-1)`, over the reals. -/
theorem no_self_shadow_when_facing_light_witness :
    IsSqrt Real.sqrt ∧ (0 : ℝ) < 50 ∧
    dot (findVec (⟨0, 0, 240⟩ : Vec3D ℝ) ⟨0, 0, 190⟩) (findVec ⟨0, 0, 240⟩ ⟨0, 0, 190⟩)
      = 50 * 50 ∧
    getMagnitude Real.sqrt (⟨0, 0, -1⟩ : Vec3D ℝ) = 1 ∧
    (0 : ℝ) ≤ dot (⟨0, 0, -1⟩ : Vec3D ℝ) ⟨0, 0, -1⟩ ∧
    ¬ 0 < getSphereIntersectionT Real.sqrt
      (add (⟨0, 0, 190⟩ : Vec3D ℝ) (scale ⟨0, 0, -1⟩ ACCURACY)) ⟨0, 0, -1⟩
      ⟨⟨0, 0, 240⟩, 50, Material.DIFFUSE, ⟨1, 0, 0⟩⟩ :=
  have hp : dot (findVec (⟨0, 0, 240⟩ : Vec3D ℝ) ⟨0, 0, 190⟩)
      (findVec ⟨0, 0, 240⟩ ⟨0, 0, 190⟩) = 50 * 50 := by
    simp only [dot, findVec]; norm_num
  have hL : getMagnitude Real.sqrt (⟨0, 0, -1⟩ : Vec3D ℝ) = 1 := by
    simp only [getMagnitude]
    exact isSqrt_real.eq_of_mul_self (by norm_num) (by norm_num)
  have hnL : (0 : ℝ) ≤ dot (⟨0, 0, -1⟩ : Vec3D ℝ) ⟨0, 0, -1⟩ := by
    simp only [dot]; norm_num
  ⟨isSqrt_real, by norm_num, hp, hL, hnL,
    (no_self_shadow_when_facing_light isSqrt_real
      ⟨⟨0, 0, 240⟩, 50, Material.DIFFUSE, ⟨1, 0, 0⟩⟩ ⟨0, 0, 190⟩ ⟨0, 0, -1⟩ ⟨0, 0, -1⟩
      (by norm_num) hp (by simp only [Vec3D.mk.injEq]; norm_num) hL hnL).2⟩

/-- C20: with the compiled-in scene every colour that a render loop passes
to `convertColour` has its three components between `0` and `1`; this holds
for every `x` and `y`, so for `getPixelColour(240, i-120, 120-j)` at
every pixel.  Hence the scaled channels lie between `0` and `31`, `31`,
`63`, each conversion to `uint8_t` is in range and is the floor, and none of
the three clamp tests of `convertColour` succeeds. -/
theorem render_colours_in_unit_range [FloorRing F] {sqrt : F → F} (hsqrt : IsSqrt sqrt)
    (out1 out2 : Intersection F) (x y : F) :
    (0 ≤ (getPixelColour sqrt spheres out1 out2 240 x y).red ∧
      (getPixelColour sqrt spheres out1 out2 240 x y).red ≤ 1 ∧
      0 ≤ (getPixelColour sqrt spheres out1 out2 240 x y).green ∧
      (getPixelColour sqrt spheres out1 out2 240 x y).green ≤ 1 ∧
      0 ≤ (getPixelColour sqrt spheres out1 out2 240 x y).blue ∧
      (getPixelColour sqrt spheres out1 out2 240 x y).blue ≤ 1) ∧
    (0 ≤ (getPixelColour sqrt spheres out1 out2 240 x y).blue * 31 ∧
      (getPixelColour sqrt spheres out1 out2 240 x y).blue * 31 ≤ 31 ∧
      0 ≤ (getPixelColour sqrt spheres out1 out2 240 x y).red * 31 ∧
      (getPixelColour sqrt spheres out1 out2 240 x y).red * 31 ≤ 31 ∧
      0 ≤ (getPixelColour sqrt spheres out1 out2 240 x y).green * 63 ∧
      (getPixelColour sqrt spheres out1 out2 240 x y).green * 63 ≤ 63) ∧
    (toUInt8 ((getPixelColour sqrt spheres out1 out2 240 x y).blue * 31)
        = ⌊(getPixelColour sqrt spheres out1 out2 240 x y).blue * 31⌋.toNat ∧
      toUInt8 ((getPixelColour sqrt spheres out1 out2 240 x y).red * 31)
        = ⌊(getPixelColour sqrt spheres out1 out2 240 x y).red * 31⌋.toNat ∧
      toUInt8 ((getPixelColour sqrt spheres out1 out2 240 x y).green * 63)
        = ⌊(getPixelColour sqrt spheres out1 out2 240 x y).green * 63⌋.toNat) ∧
    (¬ toUInt8 ((getPixelColour sqrt spheres out1 out2 240 x y).blue * 31) > 31 ∧
      ¬ toUInt8 ((getPixelColour sqrt spheres out1 out2 240 x y).red * 31) > 31 ∧
      ¬ toUInt8 ((getPixelColour sqrt spheres out1 out2 240 x y).green * 63) > 63) := by
  obtain ⟨hr0, hr1, hg0, hg1, hb0, hb1⟩ :=
    compiled_pixel_colour_bounds hsqrt out1 out2 240 x y
  have hbs0 : 0 ≤ (getPixelColour sqrt spheres out1 out2 240 x y).blue * 31 :=
    mul_nonneg hb0 (by norm_num)
  have hbs1 : (getPixelColour sqrt spheres out1 out2 240 x y).blue * 31 ≤ 31 := by linarith
  have hrs0 : 0 ≤ (getPixelColour sqrt spheres out1 out2 240 x y).red * 31 :=
    mul_nonneg hr0 (by norm_num)
  have hrs1 : (getPixelColour sqrt spheres out1 out2 240 x y).red * 31 ≤ 31 := by linarith
  have hgs0 : 0 ≤ (getPixelColour sqrt spheres out1 out2 240 x y).green * 63 :=
    mul_nonneg hg0 (by norm_num)
  have hgs1 : (getPixelColour sqrt spheres out1 out2 240 x y).green * 63 ≤ 63 := by linarith
  obtain ⟨hbe, hbl⟩ := toUInt8_le_of_le _ 31 hbs0 (by exact_mod_cast hbs1) (by norm_num)
  obtain ⟨hre, hrl⟩ := toUInt8_le_of_le _ 31 hrs0 (by exact_mod_cast hrs1) (by norm_num)
  obtain ⟨hge, hgl⟩ := toUInt8_le_of_le _ 63 hgs0 (by exact_mod_cast hgs1) (by norm_num)
  exact ⟨⟨hr0, hr1, hg0, hg1, hb0, hb1⟩, ⟨hbs0, hbs1, hrs0, hrs1, hgs0, hgs1⟩,
    ⟨hbe, hre, hge⟩, ⟨not_lt.mpr hbl, not_lt.mpr hrl, not_lt.mpr hgl⟩⟩

/-- C20, at the centre pixel `x = 0`, `y = 0`, over the reals. -/
theorem render_colours_in_unit_range_witness :
    IsSqrt Real.sqrt ∧
    0 ≤ (getPixelColour Real.sqrt (spheres : List (Sphere ℝ))
      ⟨false, ⟨0, 0, 0⟩, ⟨0, 0, 0⟩, Material.MIRROR, ⟨0, 0, 0⟩⟩
      ⟨false, ⟨0, 0, 0⟩, ⟨0, 0, 0⟩, Material.MIRROR, ⟨0, 0, 0⟩⟩ 240 0 0).red ∧
    (getPixelColour Real.sqrt (spheres : List (Sphere ℝ))
      ⟨false, ⟨0, 0, 0⟩, ⟨0, 0, 0⟩, Material.MIRROR, ⟨0, 0, 0⟩⟩
      ⟨false, ⟨0, 0, 0⟩, ⟨0, 0, 0⟩, Material.MIRROR, ⟨0, 0, 0⟩⟩ 240 0 0).red ≤ 1 :=
  have h := (render_colours_in_unit_range isSqrt_real
    (⟨false, ⟨0, 0, 0⟩, ⟨0, 0, 0⟩, Material.MIRROR, ⟨0, 0, 0⟩⟩ : Intersection ℝ)
    ⟨false, ⟨0, 0, 0⟩, ⟨0, 0, 0⟩, Material.MIRROR, ⟨0, 0, 0⟩⟩ 0 0).1
  ⟨isSqrt_real, h.1, h.2.1⟩

end Claims

end PicoRaytracer
